import Mathlib

/-!
Verification development for the CVODES multistep integrator core
(src/cvodes/source/cvodes.c).

Scalars of the C type realtype are modelled as rationals; the exact
real-arithmetic identities claimed by the specification are proved over this
field.  State vectors (the N_Vector type) are modelled either as elements of an
abstract module over the rationals (for claims whose content is linear-algebraic)
or as lists of rationals (for claims about componentwise constructions).
Transcendental helpers of the C code (RPowerR, RSqrt, the WRMS norm, the
user right-hand side f) are passed as explicit function parameters where the
claims do not depend on their values.
-/

open Finset

/-- Sensitivity method tag: SIMULTANEOUS, STAGGERED, STAGGERED1 (cvodes.h). -/
inductive ISM where
  | simultaneous
  | staggered
  | staggered1
deriving DecidableEq, Repr

/-- Linear multistep method tag: ADAMS or BDF. -/
inductive LMM where
  | adams
  | bdf
deriving DecidableEq, Repr

section NordsieckCore

variable {V : Type*} [AddCommGroup V]

/-- One inner pass of the Nordsieck predictor, i.e. the C loop
  for (j = k+n-1+1; j >= k; j--) zn[j-1] += zn[j]
from CVPredict (cvodes.c:5065-5067), embedded by recursion on the remaining
iteration count: innerAdd k n performs the updates for j = k+n-1+... down to k,
where the first iteration processed is j = k+n (then n decreases). -/
def innerAdd (k : ℕ) : ℕ → (ℕ → V) → (ℕ → V)
  | 0, z => z
  | n+1, z => innerAdd k n (Function.update z (k+n-1) (z (k+n-1) + z (k+n)))

/-- One inner pass of CVRestore (cvodes.c:5784-5786), the same loop with
  zn[j-1] -= zn[j]. -/
def innerSub (k : ℕ) : ℕ → (ℕ → V) → (ℕ → V)
  | 0, z => z
  | n+1, z => innerSub k n (Function.update z (k+n-1) (z (k+n-1) - z (k+n)))

/-- The outer loop for (k = 1; k <= q; k++) of CVPredict: pass number k = r+1
runs the inner loop for j = q down to k, i.e. q - k + 1 = q - r iterations. -/
def predictPasses (q : ℕ) : ℕ → (ℕ → V) → (ℕ → V)
  | 0, z => z
  | r+1, z => innerAdd (r+1) (q - r) (predictPasses q r z)

/-- The outer loop of CVRestore. -/
def restorePasses (q : ℕ) : ℕ → (ℕ → V) → (ℕ → V)
  | 0, z => z
  | r+1, z => innerSub (r+1) (q - r) (restorePasses q r z)

/-- Full Pascal-triangle update of a Nordsieck array at order q (CVPredict). -/
def predictZn (q : ℕ) (z : ℕ → V) : ℕ → V := predictPasses q q z

/-- Full inverse update of a Nordsieck array at order q (CVRestore). -/
def restoreZn (q : ℕ) (z : ℕ → V) : ℕ → V := restorePasses q q z

lemma update_apply_eq_add (z : ℕ → V) (a : ℕ) (v : V) (i : ℕ) :
    Function.update z a v i = z i + (if i = a then v - z a else 0) := by
  by_cases h : i = a
  · subst h; simp
  · simp [Function.update, h]

lemma innerAdd_apply (k : ℕ) (hk : 1 ≤ k) :
    ∀ (n : ℕ) (z : ℕ → V) (m : ℕ),
      innerAdd k n z m =
        if k - 1 ≤ m ∧ m < k + n then ∑ i ∈ Icc m (k+n-1), z i else z m := by
  intro n
  induction n with
  | zero =>
    intro z m
    simp only [innerAdd]
    by_cases h : k - 1 ≤ m ∧ m < k + 0
    · have hm : m = k - 1 := by omega
      subst hm
      rw [if_pos h]
      have : k + 0 - 1 = k - 1 := by omega
      rw [this, Finset.Icc_self, Finset.sum_singleton]
    · rw [if_neg h]
  | succ n ih =>
    intro z m
    have hstep : innerAdd k (n+1) z
        = innerAdd k n (Function.update z (k+n-1) (z (k+n-1) + z (k+n))) := rfl
    rw [hstep, ih]
    set z' : ℕ → V := Function.update z (k+n-1) (z (k+n-1) + z (k+n)) with hz'
    have hz'ne : ∀ i, i ≠ k+n-1 → z' i = z i := by
      intro i hi; simp [hz', Function.update, hi]
    by_cases h1 : k - 1 ≤ m ∧ m < k + n
    · -- m is inside the window already updated by the remaining iterations
      rw [if_pos h1, if_pos (by omega : k - 1 ≤ m ∧ m < k + (n+1))]
      have hmem : k+n-1 ∈ Icc m (k+n-1) := by
        rw [Finset.mem_Icc]; omega
      have hupd : ∀ i ∈ Icc m (k+n-1),
          z' i = z i + (if i = k+n-1 then z (k+n) else 0) := by
        intro i _
        rw [hz', update_apply_eq_add]
        by_cases hi : i = k+n-1 <;> simp [hi]
      calc ∑ i ∈ Icc m (k+n-1), z' i
          = ∑ i ∈ Icc m (k+n-1), (z i + (if i = k+n-1 then z (k+n) else 0)) :=
            Finset.sum_congr rfl hupd
        _ = (∑ i ∈ Icc m (k+n-1), z i) + z (k+n) := by
            rw [Finset.sum_add_distrib, Finset.sum_ite_eq' (Icc m (k+n-1)) (k+n-1)]
            rw [if_pos hmem]
        _ = ∑ i ∈ Icc m (k+(n+1)-1), z i := by
            rw [show k+(n+1)-1 = (k+n-1) + 1 by omega,
              Finset.sum_Icc_succ_top (by omega : m ≤ (k+n-1) + 1),
              show (k+n-1) + 1 = k+n by omega]
    · by_cases h2 : m = k + n
      · -- the new top of the window: untouched by the remaining iterations
        rw [if_neg h1, if_pos (by omega : k - 1 ≤ m ∧ m < k + (n+1))]
        rw [hz'ne m (by omega), h2]
        rw [show k+(n+1)-1 = k+n by omega, Finset.Icc_self, Finset.sum_singleton]
      · -- outside the window entirely
        rw [if_neg h1, if_neg (by omega : ¬(k - 1 ≤ m ∧ m < k + (n+1)))]
        exact hz'ne m (by omega)

lemma innerSub_apply (k : ℕ) (hk : 1 ≤ k) :
    ∀ (n : ℕ) (z : ℕ → V) (m : ℕ),
      innerSub k n z m =
        if k - 1 ≤ m ∧ m < k + n then
          ∑ i ∈ Icc m (k+n-1), ((-1 : ℤ)^(i-m)) • z i
        else z m := by
  intro n
  induction n with
  | zero =>
    intro z m
    simp only [innerSub]
    by_cases h : k - 1 ≤ m ∧ m < k + 0
    · have hm : m = k - 1 := by omega
      subst hm
      rw [if_pos h]
      have : k + 0 - 1 = k - 1 := by omega
      rw [this, Finset.Icc_self, Finset.sum_singleton, Nat.sub_self]
      simp
    · rw [if_neg h]
  | succ n ih =>
    intro z m
    have hstep : innerSub k (n+1) z
        = innerSub k n (Function.update z (k+n-1) (z (k+n-1) - z (k+n))) := rfl
    rw [hstep, ih]
    set z' : ℕ → V := Function.update z (k+n-1) (z (k+n-1) - z (k+n)) with hz'
    have hz'ne : ∀ i, i ≠ k+n-1 → z' i = z i := by
      intro i hi; simp [hz', Function.update, hi]
    by_cases h1 : k - 1 ≤ m ∧ m < k + n
    · rw [if_pos h1, if_pos (by omega : k - 1 ≤ m ∧ m < k + (n+1))]
      have hmem : k+n-1 ∈ Icc m (k+n-1) := by
        rw [Finset.mem_Icc]; omega
      have hupd : ∀ i ∈ Icc m (k+n-1),
          ((-1 : ℤ)^(i-m)) • z' i
            = ((-1 : ℤ)^(i-m)) • z i
              + (if i = k+n-1 then (-((-1 : ℤ)^(i-m))) • z (k+n) else 0) := by
        intro i _
        by_cases hi : i = k+n-1
        · subst hi
          rw [hz', if_pos rfl]
          simp [Function.update, smul_sub, sub_eq_add_neg, neg_smul]
        · rw [hz'ne i hi, if_neg hi, add_zero]
      calc ∑ i ∈ Icc m (k+n-1), ((-1 : ℤ)^(i-m)) • z' i
          = ∑ i ∈ Icc m (k+n-1),
              (((-1 : ℤ)^(i-m)) • z i
                + (if i = k+n-1 then (-((-1 : ℤ)^(i-m))) • z (k+n) else 0)) :=
            Finset.sum_congr rfl hupd
        _ = (∑ i ∈ Icc m (k+n-1), ((-1 : ℤ)^(i-m)) • z i)
              + (-((-1 : ℤ)^(k+n-1-m))) • z (k+n) := by
            rw [Finset.sum_add_distrib,
              Finset.sum_ite_eq' (Icc m (k+n-1)) (k+n-1), if_pos hmem]
        _ = ∑ i ∈ Icc m (k+(n+1)-1), ((-1 : ℤ)^(i-m)) • z i := by
            rw [show k+(n+1)-1 = (k+n-1) + 1 by omega,
              Finset.sum_Icc_succ_top (by omega : m ≤ (k+n-1) + 1),
              show (k+n-1) + 1 = k+n by omega]
            congr 1
            rw [show k+n-m = (k+n-1-m) + 1 by omega, pow_succ]
            simp
    · by_cases h2 : m = k + n
      · rw [if_neg h1, if_pos (by omega : k - 1 ≤ m ∧ m < k + (n+1))]
        rw [hz'ne m (by omega), h2]
        rw [show k+(n+1)-1 = k+n by omega, Finset.Icc_self, Finset.sum_singleton,
          Nat.sub_self]
        simp
      · rw [if_neg h1, if_neg (by omega : ¬(k - 1 ≤ m ∧ m < k + (n+1)))]
        exact hz'ne m (by omega)

/-- Coefficient of the composed predictor passes: after passes k = 1..r the
entry at index m is the Icc-weighted combination of the original entries with
these binomial weights. -/
def pascalCoeff (r m i : ℕ) : ℕ :=
  if m < r then i.choose m else (i - m + r - 1).choose (r - 1)

lemma sum_desc_choose (r : ℕ) (hr : 1 ≤ r) (m i : ℕ) (hmi : m ≤ i) :
    ∑ j ∈ Icc m i, (i - j + r - 1).choose (r - 1) = (i - m + r).choose r := by
  rw [← Nat.Ico_succ_right, Finset.sum_Ico_eq_sum_range]
  have hN : i + 1 - m = (i - m) + 1 := by omega
  rw [hN]
  have hterm : ∀ t, i - (m + t) + r - 1 = ((i - m) - t) + (r - 1) := by
    intro t; omega
  calc ∑ t ∈ range ((i-m) + 1), (i - (m + t) + r - 1).choose (r - 1)
      = ∑ t ∈ range ((i-m) + 1), (((i-m) + 1 - 1 - t) + (r - 1)).choose (r - 1) := by
        refine Finset.sum_congr rfl ?_
        intro t _
        rw [hterm t]
        congr 2
    _ = ∑ t ∈ range ((i-m) + 1), (t + (r - 1)).choose (r - 1) :=
        Finset.sum_range_reflect (fun t => (t + (r - 1)).choose (r - 1)) ((i-m) + 1)
    _ = ((i-m) + (r-1) + 1).choose ((r-1) + 1) := Nat.sum_range_add_choose (i-m) (r-1)
    _ = (i - m + r).choose r := by
        congr 1 <;> omega

lemma predictPasses_apply (q : ℕ) :
    ∀ r, 1 ≤ r → r ≤ q → ∀ (z : ℕ → V) (m : ℕ),
      predictPasses q r z m =
        if m ≤ q then ∑ i ∈ Icc m q, (pascalCoeff r m i : ℤ) • z i else z m := by
  intro r
  induction r with
  | zero => intro h; omega
  | succ r ih =>
    intro _ hrq z m
    rcases Nat.eq_zero_or_pos r with hr0 | hrpos
    · -- r + 1 = 1 : the first pass is the plain suffix sum
      subst hr0
      have h1 : predictPasses q 1 z = innerAdd 1 (q - 0) (predictPasses q 0 z) := rfl
      rw [h1]
      have h0 : predictPasses q 0 z = z := rfl
      rw [h0, innerAdd_apply 1 le_rfl]
      have hc : (1 - 1 ≤ m ∧ m < 1 + (q - 0)) ↔ m ≤ q := by omega
      by_cases hm : m ≤ q
      · rw [if_pos (by omega : 1 - 1 ≤ m ∧ m < 1 + (q - 0)), if_pos hm]
        rw [show 1 + (q - 0) - 1 = q by omega]
        refine Finset.sum_congr rfl ?_
        intro i _
        have : pascalCoeff 1 m i = 1 := by
          unfold pascalCoeff
          by_cases h : m < 1
          · rw [if_pos h]
            have : m = 0 := by omega
            simp [this]
          · rw [if_neg h]
            simp
        rw [this]
        simp
      · rw [if_neg (by omega : ¬(1 - 1 ≤ m ∧ m < 1 + (q - 0))), if_neg hm]
    · -- induction step: apply pass r+1 after passes 1..r
      have hstep : predictPasses q (r+1) z = innerAdd (r+1) (q - r) (predictPasses q r z) := rfl
      rw [hstep, innerAdd_apply (r+1) (by omega)]
      set w : ℕ → V := predictPasses q r z with hw
      have hwm : ∀ m, w m = if m ≤ q then ∑ i ∈ Icc m q, (pascalCoeff r m i : ℤ) • z i else z m :=
        ih hrpos (by omega) z
      by_cases hm : m ≤ q
      · rw [if_pos hm]
        by_cases hmr : r ≤ m
        · -- the window updated by pass r+1
          rw [if_pos (by omega : (r+1) - 1 ≤ m ∧ m < (r+1) + (q - r))]
          rw [show (r+1) + (q - r) - 1 = q by omega]
          have hsum1 : ∑ j ∈ Icc m q, w j
              = ∑ j ∈ Icc m q, ∑ i ∈ Icc j q, (pascalCoeff r j i : ℤ) • z i := by
            refine Finset.sum_congr rfl ?_
            intro j hj
            rw [Finset.mem_Icc] at hj
            rw [hwm j, if_pos hj.2]
          rw [hsum1]
          rw [Finset.sum_comm' (by
            intro j i
            simp only [Finset.mem_Icc]
            omega : ∀ (j i : ℕ), (j ∈ Icc m q ∧ i ∈ Icc j q) ↔ (j ∈ Icc m i ∧ i ∈ Icc m q))]
          refine Finset.sum_congr rfl ?_
          intro i hi
          rw [Finset.mem_Icc] at hi
          rw [← Finset.sum_smul]
          congr 1
          have hcongr : ∑ j ∈ Icc m i, (pascalCoeff r j i : ℤ)
              = ∑ j ∈ Icc m i, ((i - j + r - 1).choose (r - 1) : ℤ) := by
            refine Finset.sum_congr rfl ?_
            intro j hj
            rw [Finset.mem_Icc] at hj
            unfold pascalCoeff
            rw [if_neg (by omega : ¬ j < r)]
          rw [hcongr, ← Nat.cast_sum, sum_desc_choose r hrpos m i hi.1]
          unfold pascalCoeff
          by_cases h : m < r + 1
          · rw [if_pos h]
            congr 1
            have : m = r := by omega
            subst this
            congr 1
            omega
          · rw [if_neg h]
            congr 2
        · -- below the window: untouched by pass r+1, coefficient unchanged
          rw [if_neg (by omega : ¬((r+1) - 1 ≤ m ∧ m < (r+1) + (q - r)))]
          rw [hwm m, if_pos hm]
          refine Finset.sum_congr rfl ?_
          intro i _
          unfold pascalCoeff
          rw [if_pos (by omega : m < r), if_pos (by omega : m < r + 1)]
      · rw [if_neg hm, if_neg (by omega : ¬((r+1) - 1 ≤ m ∧ m < (r+1) + (q - r)))]
        rw [hwm m, if_neg hm]

lemma restorePasses_apply (q : ℕ) :
    ∀ r, 1 ≤ r → r ≤ q → ∀ (z : ℕ → V) (m : ℕ),
      restorePasses q r z m =
        if m ≤ q then
          ∑ i ∈ Icc m q, (((-1 : ℤ)^(i-m)) * (pascalCoeff r m i : ℤ)) • z i
        else z m := by
  intro r
  induction r with
  | zero => intro h; omega
  | succ r ih =>
    intro _ hrq z m
    rcases Nat.eq_zero_or_pos r with hr0 | hrpos
    · subst hr0
      have h1 : restorePasses q 1 z = innerSub 1 (q - 0) (restorePasses q 0 z) := rfl
      rw [h1]
      have h0 : restorePasses q 0 z = z := rfl
      rw [h0, innerSub_apply 1 le_rfl]
      by_cases hm : m ≤ q
      · rw [if_pos (by omega : 1 - 1 ≤ m ∧ m < 1 + (q - 0)), if_pos hm]
        rw [show 1 + (q - 0) - 1 = q by omega]
        refine Finset.sum_congr rfl ?_
        intro i _
        have : pascalCoeff 1 m i = 1 := by
          unfold pascalCoeff
          by_cases h : m < 1
          · rw [if_pos h]
            have : m = 0 := by omega
            simp [this]
          · rw [if_neg h]
            simp
        rw [this]
        simp
      · rw [if_neg (by omega : ¬(1 - 1 ≤ m ∧ m < 1 + (q - 0))), if_neg hm]
    · have hstep : restorePasses q (r+1) z = innerSub (r+1) (q - r) (restorePasses q r z) := rfl
      rw [hstep, innerSub_apply (r+1) (by omega)]
      set w : ℕ → V := restorePasses q r z with hw
      have hwm : ∀ m, w m = if m ≤ q then
          ∑ i ∈ Icc m q, (((-1 : ℤ)^(i-m)) * (pascalCoeff r m i : ℤ)) • z i else z m :=
        ih hrpos (by omega) z
      by_cases hm : m ≤ q
      · rw [if_pos hm]
        by_cases hmr : r ≤ m
        · rw [if_pos (by omega : (r+1) - 1 ≤ m ∧ m < (r+1) + (q - r))]
          rw [show (r+1) + (q - r) - 1 = q by omega]
          have hsum1 : ∑ j ∈ Icc m q, ((-1 : ℤ)^(j-m)) • w j
              = ∑ j ∈ Icc m q, ∑ i ∈ Icc j q,
                  (((-1 : ℤ)^(i-m)) * (pascalCoeff r j i : ℤ)) • z i := by
            refine Finset.sum_congr rfl ?_
            intro j hj
            rw [Finset.mem_Icc] at hj
            rw [hwm j, if_pos hj.2, Finset.smul_sum]
            refine Finset.sum_congr rfl ?_
            intro i hi
            rw [Finset.mem_Icc] at hi
            rw [smul_smul]
            congr 1
            rw [← mul_assoc, ← pow_add]
            congr 2
            omega
          rw [hsum1]
          rw [Finset.sum_comm' (by
            intro j i
            simp only [Finset.mem_Icc]
            omega : ∀ (j i : ℕ), (j ∈ Icc m q ∧ i ∈ Icc j q) ↔ (j ∈ Icc m i ∧ i ∈ Icc m q))]
          refine Finset.sum_congr rfl ?_
          intro i hi
          rw [Finset.mem_Icc] at hi
          rw [← Finset.sum_smul]
          congr 1
          have hcongr : ∑ j ∈ Icc m i, ((-1 : ℤ)^(i-m)) * (pascalCoeff r j i : ℤ)
              = ((-1 : ℤ)^(i-m)) * ∑ j ∈ Icc m i, ((i - j + r - 1).choose (r - 1) : ℤ) := by
            rw [Finset.mul_sum]
            refine Finset.sum_congr rfl ?_
            intro j hj
            rw [Finset.mem_Icc] at hj
            unfold pascalCoeff
            rw [if_neg (by omega : ¬ j < r)]
          rw [hcongr, ← Nat.cast_sum, sum_desc_choose r hrpos m i hi.1]
          congr 1
          unfold pascalCoeff
          by_cases h : m < r + 1
          · rw [if_pos h]
            congr 1
            have : m = r := by omega
            subst this
            congr 1
            omega
          · rw [if_neg h]
            congr 2
        · rw [if_neg (by omega : ¬((r+1) - 1 ≤ m ∧ m < (r+1) + (q - r)))]
          rw [hwm m, if_pos hm]
          refine Finset.sum_congr rfl ?_
          intro i _
          congr 3
          unfold pascalCoeff
          rw [if_pos (by omega : m < r), if_pos (by omega : m < r + 1)]
      · rw [if_neg hm, if_neg (by omega : ¬((r+1) - 1 ≤ m ∧ m < (r+1) + (q - r)))]
        rw [hwm m, if_neg hm]

lemma pascalCoeff_top {q m j : ℕ} (hq : 1 ≤ q) (hmj : m ≤ j) (hjq : j ≤ q) :
    pascalCoeff q m j = j.choose m := by
  unfold pascalCoeff
  by_cases h : m < q
  · rw [if_pos h]
  · rw [if_neg h]
    have hm : m = q := by omega
    have hj : j = q := by omega
    subst hm; subst hj
    rw [show j - j + j - 1 = j - 1 by omega, Nat.choose_self, Nat.choose_self]

/-- Restore inverts predict on an arbitrary Nordsieck array, at every order. -/
lemma restoreZn_predictZn (q : ℕ) (z : ℕ → V) :
    restoreZn q (predictZn q z) = z := by
  rcases Nat.eq_zero_or_pos q with hq0 | hq
  · subst hq0; rfl
  · funext m
    unfold restoreZn predictZn
    by_cases hm : m ≤ q
    · rw [restorePasses_apply q q hq le_rfl, if_pos hm]
      have hsum : ∑ i ∈ Icc m q,
          (((-1 : ℤ)^(i-m)) * (pascalCoeff q m i : ℤ)) • predictPasses q q z i
          = ∑ i ∈ Icc m q, ∑ j ∈ Icc i q,
              ((((-1 : ℤ)^(i-m)) * (i.choose m : ℤ)) * (j.choose i : ℤ)) • z j := by
        refine Finset.sum_congr rfl ?_
        intro i hi
        rw [Finset.mem_Icc] at hi
        rw [predictPasses_apply q q hq le_rfl, if_pos hi.2, Finset.smul_sum]
        refine Finset.sum_congr rfl ?_
        intro j hj
        rw [Finset.mem_Icc] at hj
        rw [smul_smul, pascalCoeff_top hq hi.1 hi.2, pascalCoeff_top hq hj.1 hj.2]
      rw [hsum]
      rw [Finset.sum_comm' (by
        intro i j
        simp only [Finset.mem_Icc]
        omega : ∀ (i j : ℕ), (i ∈ Icc m q ∧ j ∈ Icc i q) ↔ (i ∈ Icc m j ∧ j ∈ Icc m q))]
      have hker : ∀ j ∈ Icc m q,
          ∑ i ∈ Icc m j, ((((-1 : ℤ)^(i-m)) * (i.choose m : ℤ)) * (j.choose i : ℤ)) • z j
            = (if j = m then (1 : ℤ) else 0) • z j := by
        intro j hj
        rw [Finset.mem_Icc] at hj
        rw [← Finset.sum_smul]
        congr 1
        have htri : ∀ i ∈ Icc m j,
            (((-1 : ℤ)^(i-m)) * (i.choose m : ℤ)) * (j.choose i : ℤ)
              = (j.choose m : ℤ) * (((-1 : ℤ)^(i-m)) * ((j - m).choose (i - m) : ℤ)) := by
          intro i hi
          rw [Finset.mem_Icc] at hi
          have h1 : (j.choose i) * (i.choose m) = (j.choose m) * ((j - m).choose (i - m)) :=
            Nat.choose_mul hi.2 hi.1
          have h2 : ((j.choose i : ℤ)) * (i.choose m : ℤ)
              = (j.choose m : ℤ) * ((j - m).choose (i - m) : ℤ) := by
            exact_mod_cast congrArg (Nat.cast : ℕ → ℤ) h1
          linear_combination ((-1 : ℤ)^(i-m)) * h2
        rw [Finset.sum_congr rfl htri, ← Finset.mul_sum]
        have hre : ∑ i ∈ Icc m j, ((-1 : ℤ)^(i-m)) * ((j - m).choose (i - m) : ℤ)
            = ∑ t ∈ range ((j - m) + 1), ((-1 : ℤ)^t) * ((j - m).choose t : ℤ) := by
          rw [← Nat.Ico_succ_right, Finset.sum_Ico_eq_sum_range]
          rw [show j + 1 - m = (j - m) + 1 by omega]
          refine Finset.sum_congr rfl ?_
          intro t _
          rw [show m + t - m = t by omega]
        rw [hre, Int.alternating_sum_range_choose]
        by_cases hjm : j = m
        · subst hjm
          simp
        · rw [if_neg hjm, if_neg (by omega : ¬ j - m = 0), mul_zero]
      rw [Finset.sum_congr rfl hker]
      have : ∀ j ∈ Icc m q, (if j = m then (1:ℤ) else 0) • z j
          = if j = m then z j else 0 := by
        intro j _
        by_cases hjm : j = m <;> simp [hjm]
      rw [Finset.sum_congr rfl this, Finset.sum_ite_eq' (Icc m q) m]
      rw [if_pos (by rw [Finset.mem_Icc]; omega : m ∈ Icc m q)]
    · rw [restorePasses_apply q q hq le_rfl, if_neg hm,
        predictPasses_apply q q hq le_rfl, if_neg hm]

end NordsieckCore

section SensLoop

variable {V : Type*}

/-- The sensitivity loop for (is = 0; is < Ns; is++) of CVPredict and CVRestore:
apply the same Nordsieck update to each sensitivity column family.  The array
znS is kept with the sensitivity index first (the source indexes znS[j][is];
this transposition is a representation choice only). -/
def sensApply (g : (ℕ → V) → (ℕ → V)) : ℕ → (ℕ → ℕ → V) → (ℕ → ℕ → V)
  | 0, zS => zS
  | n+1, zS => Function.update (sensApply g n zS) n (g (sensApply g n zS n))

lemma sensApply_ge (g : (ℕ → V) → (ℕ → V)) :
    ∀ (n : ℕ) (zS : ℕ → ℕ → V) (i : ℕ), n ≤ i → sensApply g n zS i = zS i := by
  intro n
  induction n with
  | zero => intro zS i _; rfl
  | succ n ih =>
    intro zS i hi
    show Function.update (sensApply g n zS) n (g (sensApply g n zS n)) i = zS i
    rw [Function.update_apply, if_neg (by omega : i ≠ n)]
    exact ih zS i (by omega)

lemma sensApply_lt (g : (ℕ → V) → (ℕ → V)) :
    ∀ (n : ℕ) (zS : ℕ → ℕ → V) (i : ℕ), i < n → sensApply g n zS i = g (zS i) := by
  intro n
  induction n with
  | zero => intro zS i hi; omega
  | succ n ih =>
    intro zS i hi
    show Function.update (sensApply g n zS) n (g (sensApply g n zS n)) i = g (zS i)
    rw [Function.update_apply]
    by_cases h : i = n
    · subst h
      rw [if_pos rfl, sensApply_ge g i zS i le_rfl]
    · rw [if_neg h]
      exact ih zS i (by omega)

lemma sensApply_inverse (p r : (ℕ → V) → (ℕ → V)) (hpr : ∀ x, r (p x) = x)
    (n : ℕ) (zS : ℕ → ℕ → V) : sensApply r n (sensApply p n zS) = zS := by
  funext i
  by_cases hi : i < n
  · rw [sensApply_lt r n _ i hi, sensApply_lt p n zS i hi, hpr]
  · rw [sensApply_ge r n _ i (by omega), sensApply_ge p n zS i (by omega)]

end SensLoop

/-- Shallow model of the CVODES integrator memory (struct CVodeMemRec):
only the fields the verified claims touch are represented.  Scalars are
rationals, state vectors live in an abstract module V, and the sensitivity
history znS is indexed sensitivity-first. -/
structure CVMem (V : Type*) where
  tn : ℚ
  h : ℚ
  hscale : ℚ
  hu : ℚ
  hprime : ℚ
  eta : ℚ
  etamax : ℚ
  etaqm1 : ℚ
  hmin : ℚ
  hmax_inv : ℚ
  uround : ℚ
  acnrm : ℚ
  gamma : ℚ
  gammap : ℚ
  gamrat : ℚ
  crate : ℚ
  crateS : ℚ
  tq : ℕ → ℚ
  q : ℕ
  L : ℕ
  qwait : ℕ
  qprime : ℕ
  nst : ℕ
  nstlp : ℕ
  maxnef : ℕ
  maxcor : ℕ
  Ns : ℕ
  nscon : ℕ
  netf : ℕ
  nfe : ℕ
  nsetups : ℕ
  nor : ℕ
  quad : Bool
  sensi : Bool
  forceSetup : Bool
  setupNonNull : Bool
  jcur : Bool
  sldeton : Bool
  ism : ISM
  zn : ℕ → V
  znQ : ℕ → V
  znS : ℕ → ℕ → V
  ewt : V
  acor : V
  y : V
  tempv : V
  ftemp : V
  ssdat : ℕ → ℕ → ℚ

/-- Field-wise extensionality for CVMem, with a flat proof. -/
lemma CVMem.fieldExt {V : Type*} {x y : CVMem V}
    (e1 : x.tn = y.tn)
    (e2 : x.h = y.h)
    (e3 : x.hscale = y.hscale)
    (e4 : x.hu = y.hu)
    (e5 : x.hprime = y.hprime)
    (e6 : x.eta = y.eta)
    (e7 : x.etamax = y.etamax)
    (e8 : x.etaqm1 = y.etaqm1)
    (e9 : x.hmin = y.hmin)
    (e10 : x.hmax_inv = y.hmax_inv)
    (e11 : x.uround = y.uround)
    (e12 : x.acnrm = y.acnrm)
    (e13 : x.gamma = y.gamma)
    (e14 : x.gammap = y.gammap)
    (e15 : x.gamrat = y.gamrat)
    (e16 : x.crate = y.crate)
    (e17 : x.crateS = y.crateS)
    (e18 : x.tq = y.tq)
    (e19 : x.q = y.q)
    (e20 : x.L = y.L)
    (e21 : x.qwait = y.qwait)
    (e22 : x.qprime = y.qprime)
    (e23 : x.nst = y.nst)
    (e24 : x.nstlp = y.nstlp)
    (e25 : x.maxnef = y.maxnef)
    (e26 : x.maxcor = y.maxcor)
    (e27 : x.Ns = y.Ns)
    (e28 : x.nscon = y.nscon)
    (e29 : x.netf = y.netf)
    (e30 : x.nfe = y.nfe)
    (e31 : x.nsetups = y.nsetups)
    (e32 : x.nor = y.nor)
    (e33 : x.quad = y.quad)
    (e34 : x.sensi = y.sensi)
    (e35 : x.forceSetup = y.forceSetup)
    (e36 : x.setupNonNull = y.setupNonNull)
    (e37 : x.jcur = y.jcur)
    (e38 : x.sldeton = y.sldeton)
    (e39 : x.ism = y.ism)
    (e40 : x.zn = y.zn)
    (e41 : x.znQ = y.znQ)
    (e42 : x.znS = y.znS)
    (e43 : x.ewt = y.ewt)
    (e44 : x.acor = y.acor)
    (e45 : x.y = y.y)
    (e46 : x.tempv = y.tempv)
    (e47 : x.ftemp = y.ftemp)
    (e48 : x.ssdat = y.ssdat) : x = y := by
  cases x
  cases y
  simp only [CVMem.mk.injEq]
  exact ⟨e1, e2, e3, e4, e5, e6, e7, e8, e9, e10, e11, e12, e13, e14, e15, e16, e17, e18, e19, e20, e21, e22, e23, e24, e25, e26, e27, e28, e29, e30, e31, e32, e33, e34, e35, e36, e37, e38, e39, e40, e41, e42, e43, e44, e45, e46, e47, e48⟩

section PredictRestore

variable {V : Type*} [AddCommGroup V]

/-- CVPredict (cvodes.c:5058-5082): advance tn by h and apply the repeated
Pascal-triangle additions to zn, and to znQ and each znS column family when
quadratures resp. sensitivities are active. -/
def CVPredict (s : CVMem V) : CVMem V :=
  { s with
    tn := s.tn + s.h
    zn := predictZn s.q s.zn
    znQ := if s.quad then predictZn s.q s.znQ else s.znQ
    znS := if s.sensi then sensApply (predictZn s.q) s.Ns s.znS else s.znS }

/-- CVRestore (cvodes.c:5778-5801): set tn to saved_t and undo the prediction
by the same loops with subtractions. -/
def CVRestore (s : CVMem V) (saved_t : ℚ) : CVMem V :=
  { s with
    tn := saved_t
    zn := restoreZn s.q s.zn
    znQ := if s.quad then restoreZn s.q s.znQ else s.znQ
    znS := if s.sensi then sensApply (restoreZn s.q) s.Ns s.znS else s.znS }

lemma CVRestore_CVPredict (s : CVMem V) (t : ℚ) :
    CVRestore (CVPredict s) t = { s with tn := t } := by
  unfold CVRestore CVPredict
  apply CVMem.fieldExt <;> simp only
  · rw [restoreZn_predictZn]
  · by_cases hq : s.quad <;> simp only [hq, if_true, if_false, Bool.false_eq_true]
    rw [restoreZn_predictZn]
  · by_cases hs : s.sensi <;> simp only [hs, if_true, if_false, Bool.false_eq_true]
    rw [sensApply_inverse _ _ (restoreZn_predictZn s.q) s.Ns s.znS]

end PredictRestore

/-- C1: for every integrator state (any current order, any step, any
combination of enabled quadrature and sensitivity subsystems), running
CVPredict and then CVRestore with the saved time leaves every history column
of zn, znQ and znS equal to its value before the predictor ran and sets tn
back to the saved time.  Proved as equality of the entire integrator state. -/
theorem C1_predict_restore_roundtrip {V : Type*} [AddCommGroup V] (s : CVMem V) :
    CVRestore (CVPredict s) s.tn = s := by
  rw [CVRestore_CVPredict]

section GetDky

variable {V : Type*} [AddCommGroup V] [Module ℚ V]

/-- FUZZ_FACTOR (cvodes.c:84). -/
def FUZZ_FACTOR : ℚ := 100

/-- Error returns of CVodeGetDky. -/
inductive DkyErr where
  | badDky
  | badK
  | badT
deriving DecidableEq, Repr

/-- The factor c = j*(j-1)*...*(j-k+1) computed by the inner loop
  for (i=j; i >= j-k+1; i--) c *= i of CVodeGetDky (cvodes.c:2737-2738). -/
def cFac (j k : ℕ) : ℚ := ∏ i ∈ Ioc (j - k) j, (i : ℚ)

/-- The Horner accumulation of CVodeGetDky (cvodes.c:2736-2744): processing
j from q down to k, dky is c•zn[q] at j = q and c•zn[j] + s•dky afterwards.
dkyHorner n is the value of dky after the iterations j = q, ..., q - n. -/
def dkyHorner (zn : ℕ → V) (s : ℚ) (q k : ℕ) : ℕ → V
  | 0 => cFac q k • zn q
  | n+1 => cFac (q - (n+1)) k • zn (q - (n+1)) + s • dkyHorner zn s q k n

/-- The fuzz interval half-width of CVodeGetDky (cvodes.c:2724-2725). -/
def dkyTfuzz (m : CVMem V) : ℚ :=
  let tfuzz := FUZZ_FACTOR * m.uround * (|m.tn| + |m.hu|)
  if m.hu < 0 then -tfuzz else tfuzz

/-- CVodeGetDky (cvodes.c:2698-2749).  The cvode_mem and dky null checks
concern pointer validity and are not represented; the k-range check, the
t-range check, the Horner evaluation of the differentiated interpolating
polynomial and the final scaling by h^(-k) are modelled exactly. -/
def CVodeGetDky (m : CVMem V) (t : ℚ) (k : ℤ) : Except DkyErr V :=
  if k < 0 ∨ k > (m.q : ℤ) then .error .badK
  else
    let tp := m.tn - m.hu - dkyTfuzz m
    let tn1 := m.tn + dkyTfuzz m
    if (t - tp) * (t - tn1) > 0 then .error .badT
    else
      let s := (t - m.tn) / m.h
      let kn := k.toNat
      let dky := dkyHorner m.zn s m.q kn (m.q - kn)
      if kn = 0 then .ok dky
      else .ok ((m.h ^ (-k)) • dky)

lemma dkyHorner_eq (zn : ℕ → V) (s : ℚ) (q k : ℕ) :
    ∀ n, n ≤ q - k →
      dkyHorner zn s q k n
        = ∑ j ∈ Icc (q - n) q, (cFac j k * s^(j - (q - n))) • zn j := by
  intro n
  induction n with
  | zero =>
    intro _
    show cFac q k • zn q = _
    rw [Nat.sub_zero, Finset.Icc_self, Finset.sum_singleton, Nat.sub_self, pow_zero,
      mul_one]
  | succ n ih =>
    intro hn
    show cFac (q - (n+1)) k • zn (q - (n+1)) + s • dkyHorner zn s q k n = _
    rw [ih (by omega)]
    rw [Finset.smul_sum]
    have h1 : ∀ j ∈ Icc (q - n) q,
        s • ((cFac j k * s^(j - (q - n))) • zn j)
          = (cFac j k * s^(j - (q - (n+1)))) • zn j := by
      intro j hj
      rw [Finset.mem_Icc] at hj
      rw [smul_smul]
      congr 1
      rw [show j - (q - (n+1)) = (j - (q - n)) + 1 by omega, pow_succ]
      ring
    rw [Finset.sum_congr rfl h1]
    have h2 : Icc (q - (n+1)) q = insert (q - (n+1)) (Icc (q - n) q) := by
      ext x
      simp only [Finset.mem_Icc, Finset.mem_insert]
      omega
    rw [h2, Finset.sum_insert (by rw [Finset.mem_Icc]; omega)]
    congr 1
    rw [Nat.sub_self, pow_zero, mul_one]

omit [AddCommGroup V] [Module ℚ V] in
lemma dky_in_range_at_tn (m : CVMem V) (hur : 0 ≤ m.uround) :
    ¬ ((m.tn - (m.tn - m.hu - dkyTfuzz m)) * (m.tn - (m.tn + dkyTfuzz m)) > 0) := by
  have ht0 : 0 ≤ FUZZ_FACTOR * m.uround * (|m.tn| + |m.hu|) := by
    have h1 : (0:ℚ) ≤ |m.tn| + |m.hu| := by positivity
    have h2 : (0:ℚ) ≤ FUZZ_FACTOR * m.uround := by
      unfold FUZZ_FACTOR; nlinarith
    nlinarith
  unfold dkyTfuzz
  by_cases hhu : m.hu < 0
  · rw [if_pos hhu]
    push_neg
    nlinarith
  · rw [if_neg hhu]
    push_neg
    push_neg at hhu
    nlinarith

/-- C2: after a successful step, CVodeGetDky at t = tn with k = 0 returns
zn[0] exactly and with k = 1 returns zn[1]/h exactly; and for every
k in [0, q] and every t accepted by the range test it returns
the sum over j in [k, q] of c(j,k) ((t-tn)/h)^(j-k) h^(-k) zn[j] with
c(j,k) = j(j-1)...(j-k+1). -/
theorem C2_getDky_interpolation (m : CVMem V) (hur : 0 ≤ m.uround) (hq : 1 ≤ m.q) :
    CVodeGetDky m m.tn 0 = .ok (m.zn 0)
    ∧ CVodeGetDky m m.tn 1 = .ok (m.h⁻¹ • m.zn 1)
    ∧ ∀ (k : ℕ) (t : ℚ), k ≤ m.q →
        (t - (m.tn - m.hu - dkyTfuzz m)) * (t - (m.tn + dkyTfuzz m)) ≤ 0 →
        CVodeGetDky m t (k : ℤ) = .ok (∑ j ∈ Icc k m.q,
          (cFac j k * ((t - m.tn)/m.h)^(j-k) * m.h^(-(k:ℤ))) • m.zn j) := by
  have hgen : ∀ (k : ℕ) (t : ℚ), k ≤ m.q →
      (t - (m.tn - m.hu - dkyTfuzz m)) * (t - (m.tn + dkyTfuzz m)) ≤ 0 →
      CVodeGetDky m t (k : ℤ) = .ok (∑ j ∈ Icc k m.q,
        (cFac j k * ((t - m.tn)/m.h)^(j-k) * m.h^(-(k:ℤ))) • m.zn j) := by
    intro k t hk hrange
    unfold CVodeGetDky
    have hknot : ¬ ((k:ℤ) < 0 ∨ (k:ℤ) > (m.q : ℤ)) := by
      push_neg
      constructor
      · positivity
      · exact_mod_cast hk
    have hrnot : ¬ ((t - (m.tn - m.hu - dkyTfuzz m)) * (t - (m.tn + dkyTfuzz m)) > 0) := by
      push_neg
      exact hrange
    rw [if_neg hknot]
    rw [if_neg hrnot]
    simp only [Int.toNat_ofNat]
    rw [dkyHorner_eq m.zn _ m.q k (m.q - k) le_rfl,
      show m.q - (m.q - k) = k by omega]
    by_cases hk0 : k = 0
    · subst hk0
      rw [if_pos rfl]
      congr 1
      refine Finset.sum_congr rfl ?_
      intro j _
      rw [Nat.cast_zero, neg_zero, zpow_zero, mul_one, Nat.sub_zero]
    · rw [if_neg hk0]
      congr 1
      rw [Finset.smul_sum]
      refine Finset.sum_congr rfl ?_
      intro j _
      rw [smul_smul]
      congr 1
      ring
  refine ⟨?_, ?_, hgen⟩
  · have h0 := hgen 0 m.tn (by omega) (by
      have := dky_in_range_at_tn m hur
      push_neg at this
      exact this)
    rw [Nat.cast_zero] at h0
    rw [h0]
    congr 1
    rw [Finset.sum_eq_single 0]
    · rw [show cFac 0 0 = 1 by rfl]
      norm_num
    · intro j hj hj0
      rw [Finset.mem_Icc] at hj
      rw [sub_self, zero_div, zero_pow (by omega : j - 0 ≠ 0)]
      rw [mul_zero, zero_mul, zero_smul]
    · intro h0
      exfalso
      exact h0 (by rw [Finset.mem_Icc]; omega)
  · have h1 := hgen 1 m.tn hq (by
      have := dky_in_range_at_tn m hur
      push_neg at this
      exact this)
    rw [Nat.cast_one] at h1
    rw [h1]
    congr 1
    rw [Finset.sum_eq_single 1]
    · rw [show cFac 1 1 = 1 by
        unfold cFac
        rw [show (1:ℕ) - 1 = 0 by rfl]
        rw [show Ioc 0 1 = {1} by rfl]
        simp]
      rw [Nat.sub_self, pow_zero, one_mul, one_mul, zpow_neg, zpow_one]
    · intro j hj hj1
      rw [Finset.mem_Icc] at hj
      rw [sub_self, zero_div, zero_pow (by omega : j - 1 ≠ 0)]
      rw [mul_zero, zero_mul, zero_smul]
    · intro h1'
      exfalso
      exact h1' (by rw [Finset.mem_Icc]; omega)

end GetDky

/-- ONEPSM = 1 + epsilon used for the step-size floor test (cvodes.c:125). -/
def ONEPSM : ℚ := 1000001/1000000

/-- ETAMXF (cvodes.c:118). -/
def ETAMXF : ℚ := 1/5

/-- ETAMIN (cvodes.c:119). -/
def ETAMIN : ℚ := 1/10

/-- ADDON (cvodes.c:121). -/
def ADDON : ℚ := 1/1000000

/-- BIAS2 (cvodes.c:123). -/
def BIAS2 : ℚ := 6

/-- MXNEF1 (cvodes.c:132). -/
def MXNEF1 : ℕ := 3

/-- SMALL_NEF (cvodes.c:134). -/
def SMALL_NEF : ℕ := 2

/-- LONG_WAIT (cvodes.c:137). -/
def LONG_WAIT : ℕ := 10

/-- MSBP (cvodes.c:166). -/
def MSBP : ℕ := 20

/-- DGMAX (cvodes.c:162). -/
def DGMAX : ℚ := 3/10

/-- RDIV (cvodes.c:165). -/
def RDIV : ℚ := 2

/-- CRDOWN (cvodes.c:159). -/
def CRDOWN : ℚ := 3/10

section Rescale

variable {V : Type*} [AddCommGroup V] [Module ℚ V]

/-- Effect of the CVRescale column loop (cvodes.c:5030-5044): the running
factor equals eta^j at iteration j, so column j of the array is multiplied
by eta^j for j = 1..q and left alone otherwise. -/
def rescaleCols (eta : ℚ) (q : ℕ) (zn : ℕ → V) : ℕ → V :=
  fun j => if 1 ≤ j ∧ j ≤ q then eta^j • zn j else zn j

/-- CVRescale (cvodes.c:5024-5048): rescale the history columns by powers of
eta, then h := hscale * eta, hscale := h, nscon := 0. -/
def CVRescale (s : CVMem V) : CVMem V :=
  { s with
    zn := rescaleCols s.eta s.q s.zn
    znQ := if s.quad then rescaleCols s.eta s.q s.znQ else s.znQ
    znS := if s.sensi then
        (fun i => if i < s.Ns then rescaleCols s.eta s.q (s.znS i) else s.znS i)
      else s.znS
    h := s.hscale * s.eta
    hscale := s.hscale * s.eta
    nscon := 0 }

/-- Which exit of CVDoErrorTest was taken. -/
inductive ErrTestBranch where
  | pass
  | repErrFail
  | retryRescale
  | retryOrderDecrease
  | retryRestart
deriving DecidableEq, Repr

/-- Result of CVDoErrorTest: the returned boolean, whether *kflagPtr was set
to REP_ERR_FAIL, whether *nflagPtr was set to PREV_ERR_FAIL, the local error
test failure counter *nefPtr, *dsmPtr, the updated memory and the branch. -/
structure ErrTestResult (V : Type*) where
  passed : Bool
  kflagRepErrFail : Bool
  nflagPrevErrFail : Bool
  nef : ℕ
  dsm : ℚ
  mem : CVMem V
  branch : ErrTestBranch

/-- CVDoErrorTest (cvodes.c:5826-5901).  The power function RPowerR is passed
as the parameter rpow.  The routines CVAdjustOrder(cv_mem, -1) (order-decrease
branch) and the right-hand-side reload block of the order-1 restart branch
(f, fQ, CVSensRhs evaluations into zn[1], znQ[1], znS[1]) are passed as the
opaque state transformers adjustOrderDown and rhsReload: the claims proved
here do not depend on their effect.  All control flow, counter updates,
restore, eta computation and rescaling are modelled exactly. -/
def CVDoErrorTest (adjustOrderDown rhsReload : CVMem V → CVMem V)
    (rpow : ℚ → ℚ → ℚ) (s : CVMem V) (saved_t : ℚ) (nef : ℕ) : ErrTestResult V :=
  let dsm := s.acnrm / s.tq 2
  if dsm ≤ 1 then ⟨true, false, false, nef, dsm, s, .pass⟩
  else
    let nef1 := nef + 1
    let s1 : CVMem V := { CVRestore s saved_t with netf := s.netf + 1 }
    if |s1.h| ≤ s1.hmin * ONEPSM ∨ nef1 = s1.maxnef then
      ⟨false, true, true, nef1, dsm, s1, .repErrFail⟩
    else
      let s2 : CVMem V := { s1 with etamax := 1 }
      if nef1 ≤ MXNEF1 then
        let eta0 := 1 / (rpow (BIAS2 * dsm) (1 / (s2.L : ℚ)) + ADDON)
        let eta1 := max ETAMIN (max eta0 (s2.hmin / |s2.h|))
        let eta2 := if SMALL_NEF ≤ nef1 then min eta1 ETAMXF else eta1
        ⟨false, false, true, nef1, dsm, CVRescale { s2 with eta := eta2 }, .retryRescale⟩
      else if 1 < s2.q then
        let s3 := adjustOrderDown { s2 with eta := max ETAMIN (s2.hmin / |s2.h|) }
        let s4 : CVMem V := { s3 with L := s3.q, q := s3.q - 1, qwait := s3.q }
        ⟨false, false, true, nef1, dsm, CVRescale s4, .retryOrderDecrease⟩
      else
        let etaR := max ETAMIN (s2.hmin / |s2.h|)
        let s5 := rhsReload { s2 with
          eta := etaR, h := s2.h * etaR,
          hscale := s2.h * etaR, qwait := LONG_WAIT, nscon := 0 }
        ⟨false, false, true, nef1, dsm, s5, .retryRestart⟩


lemma CVDoErrorTest_predict_eq {V : Type*} [AddCommGroup V] [Module ℚ V]
    (adjustOrderDown rhsReload : CVMem V → CVMem V) (rpow : ℚ → ℚ → ℚ)
    (s0 : CVMem V) (nef : ℕ) (hdsm : 1 < s0.acnrm / s0.tq 2) :
    CVDoErrorTest adjustOrderDown rhsReload rpow (CVPredict s0) s0.tn nef
      = if |s0.h| ≤ s0.hmin * ONEPSM ∨ nef + 1 = s0.maxnef then
          ⟨false, true, true, nef + 1, s0.acnrm / s0.tq 2,
            { s0 with netf := s0.netf + 1 }, .repErrFail⟩
        else if nef + 1 ≤ MXNEF1 then
          ⟨false, false, true, nef + 1, s0.acnrm / s0.tq 2,
            CVRescale { s0 with
              netf := s0.netf + 1, etamax := 1,
              eta := (if SMALL_NEF ≤ nef + 1 then
                  min (max ETAMIN
                    (max (1 / (rpow (BIAS2 * (s0.acnrm / s0.tq 2)) (1 / (s0.L : ℚ)) + ADDON))
                      (s0.hmin / |s0.h|))) ETAMXF
                else
                  max ETAMIN
                    (max (1 / (rpow (BIAS2 * (s0.acnrm / s0.tq 2)) (1 / (s0.L : ℚ)) + ADDON))
                      (s0.hmin / |s0.h|))) },
            .retryRescale⟩
        else if 1 < s0.q then
          ⟨false, false, true, nef + 1, s0.acnrm / s0.tq 2,
            CVRescale
              (let s3 := adjustOrderDown { s0 with
                  netf := s0.netf + 1, etamax := 1,
                  eta := max ETAMIN (s0.hmin / |s0.h|) };
                { s3 with L := s3.q, q := s3.q - 1, qwait := s3.q }),
            .retryOrderDecrease⟩
        else
          ⟨false, false, true, nef + 1, s0.acnrm / s0.tq 2,
            rhsReload { s0 with
              netf := s0.netf + 1, etamax := 1,
              eta := max ETAMIN (s0.hmin / |s0.h|),
              h := s0.h * (max ETAMIN (s0.hmin / |s0.h|)),
              hscale := s0.h * (max ETAMIN (s0.hmin / |s0.h|)),
              qwait := LONG_WAIT, nscon := 0 },
            .retryRestart⟩ := by
  have hself : CVRestore (CVPredict s0) s0.tn = s0 := by
    rw [CVRestore_CVPredict]
  unfold CVDoErrorTest
  simp only [hself, show (CVPredict s0).acnrm = s0.acnrm from rfl,
    show (CVPredict s0).tq = s0.tq from rfl,
    show (CVPredict s0).netf = s0.netf from rfl]
  rw [if_neg (not_le.mpr hdsm)]

/-- C3: whenever the local error test fails (dsm = acnrm/tq[2] > 1) on the
predicted state, CVDoErrorTest restores tn and the whole Nordsieck history to
their pre-predict values and increments netf and the local counter nef; it
reports REP_ERR_FAIL exactly when the incremented nef reaches maxnef = 7 or
the step magnitude is already at hmin within rounding (ONEPSM); otherwise,
while nef is at most MXNEF1 = 3, it sets eta = 1/((BIAS2 dsm)^(1/L) + ADDON)
clipped below by ETAMIN = 0.1 and by hmin/|h|, additionally capped at
ETAMXF = 0.2 when nef is at least SMALL_NEF = 2, and rescales the restored
history by that eta for a retry of the step.  The hypotheses on the opaque
transformers record that CVAdjustOrder and the right-hand-side reload block
do not modify netf or tn, which is evident from their source. -/
theorem C3_error_test_failure {V : Type*} [AddCommGroup V] [Module ℚ V]
    (adjustOrderDown rhsReload : CVMem V → CVMem V) (rpow : ℚ → ℚ → ℚ)
    (s0 : CVMem V) (nef : ℕ)
    (hdsm : 1 < s0.acnrm / s0.tq 2) (hmax : s0.maxnef = 7)
    (hadjn : ∀ s, (adjustOrderDown s).netf = s.netf)
    (hadjt : ∀ s, (adjustOrderDown s).tn = s.tn)
    (hrhsn : ∀ s, (rhsReload s).netf = s.netf)
    (hrhst : ∀ s, (rhsReload s).tn = s.tn) :
    (CVDoErrorTest adjustOrderDown rhsReload rpow (CVPredict s0) s0.tn nef).passed = false
    ∧ (CVDoErrorTest adjustOrderDown rhsReload rpow (CVPredict s0) s0.tn nef).nef = nef + 1
    ∧ (CVDoErrorTest adjustOrderDown rhsReload rpow (CVPredict s0) s0.tn nef).mem.netf
        = s0.netf + 1
    ∧ (CVDoErrorTest adjustOrderDown rhsReload rpow (CVPredict s0) s0.tn nef).mem.tn
        = s0.tn
    ∧ ((CVDoErrorTest adjustOrderDown rhsReload rpow (CVPredict s0) s0.tn nef).branch
          = .repErrFail
        ↔ (|s0.h| ≤ s0.hmin * ONEPSM ∨ nef + 1 = 7))
    ∧ ((CVDoErrorTest adjustOrderDown rhsReload rpow (CVPredict s0) s0.tn nef).kflagRepErrFail
          = true
        ↔ (|s0.h| ≤ s0.hmin * ONEPSM ∨ nef + 1 = 7))
    ∧ ((|s0.h| ≤ s0.hmin * ONEPSM ∨ nef + 1 = 7) →
        (CVDoErrorTest adjustOrderDown rhsReload rpow (CVPredict s0) s0.tn nef).mem
          = { s0 with netf := s0.netf + 1 })
    ∧ (¬ (|s0.h| ≤ s0.hmin * ONEPSM ∨ nef + 1 = 7) → nef + 1 ≤ MXNEF1 →
        (CVDoErrorTest adjustOrderDown rhsReload rpow (CVPredict s0) s0.tn nef).mem
          = CVRescale { s0 with
              netf := s0.netf + 1, etamax := 1,
              eta := (if SMALL_NEF ≤ nef + 1 then
                  min (max ETAMIN
                    (max (1 / (rpow (BIAS2 * (s0.acnrm / s0.tq 2)) (1 / (s0.L : ℚ)) + ADDON))
                      (s0.hmin / |s0.h|))) ETAMXF
                else
                  max ETAMIN
                    (max (1 / (rpow (BIAS2 * (s0.acnrm / s0.tq 2)) (1 / (s0.L : ℚ)) + ADDON))
                      (s0.hmin / |s0.h|))) }) := by
  rw [CVDoErrorTest_predict_eq adjustOrderDown rhsReload rpow s0 nef hdsm, hmax]
  have hresn : ∀ x : CVMem V, (CVRescale x).netf = x.netf := fun x => rfl
  have hrest : ∀ x : CVMem V, (CVRescale x).tn = x.tn := fun x => rfl
  by_cases hhard : |s0.h| ≤ s0.hmin * ONEPSM ∨ nef + 1 = 7
  · rw [if_pos hhard]
    exact ⟨rfl, rfl, rfl, rfl, iff_of_true rfl hhard, iff_of_true rfl hhard,
      fun _ => rfl, fun hc _ => absurd hhard hc⟩
  · rw [if_neg hhard]
    by_cases hnef : nef + 1 ≤ MXNEF1
    · rw [if_pos hnef]
      exact ⟨rfl, rfl, rfl, rfl,
        iff_of_false (fun hcon => ErrTestBranch.noConfusion hcon) hhard,
        iff_of_false (fun hcon => Bool.noConfusion hcon) hhard,
        fun hc => absurd hc hhard, fun _ _ => rfl⟩
    · rw [if_neg hnef]
      by_cases hq : 1 < s0.q
      · rw [if_pos hq]
        refine ⟨rfl, rfl, ?_, ?_,
          iff_of_false (fun hcon => ErrTestBranch.noConfusion hcon) hhard,
          iff_of_false (fun hcon => Bool.noConfusion hcon) hhard,
          fun hc => absurd hc hhard,
          fun _ hn => absurd hn hnef⟩
        · simp only [hresn, hadjn]
        · simp only [hrest, hadjt]
      · rw [if_neg hq]
        refine ⟨rfl, rfl, ?_, ?_,
          iff_of_false (fun hcon => ErrTestBranch.noConfusion hcon) hhard,
          iff_of_false (fun hcon => Bool.noConfusion hcon) hhard,
          fun hc => absurd hc hhard,
          fun _ hn => absurd hn hnef⟩
        · simp only [hrhsn]
        · simp only [hrhst]

/-- Concrete integrator state over V = rationals used to witness the theorems
on concrete inputs. -/
def testMem : CVMem ℚ where
  tn := 0
  h := 1
  hscale := 1
  hu := 1
  hprime := 1
  eta := 1
  etamax := 10
  etaqm1 := 1
  hmin := 0
  hmax_inv := 0
  uround := 1
  acnrm := 3
  gamma := 1
  gammap := 1
  gamrat := 1
  crate := 1
  crateS := 1
  tq := fun _ => 1
  q := 2
  L := 3
  qwait := 1
  qprime := 2
  nst := 1
  nstlp := 0
  maxnef := 7
  maxcor := 3
  Ns := 1
  nscon := 0
  netf := 0
  nfe := 0
  nsetups := 0
  nor := 0
  quad := false
  sensi := false
  forceSetup := false
  setupNonNull := true
  jcur := false
  sldeton := false
  ism := .simultaneous
  zn := fun j => (j : ℚ) + 1
  znQ := fun _ => 0
  znS := fun _ _ => 0
  ewt := 1
  acor := 0
  y := 0
  tempv := 0
  ftemp := 0
  ssdat := fun _ _ => 0

/-- Witness for C2 at a concrete state. -/
theorem C2_getDky_interpolation_witness :
    ((0:ℚ) ≤ testMem.uround ∧ 1 ≤ testMem.q)
    ∧ CVodeGetDky testMem testMem.tn 0 = .ok (testMem.zn 0) :=
  ⟨⟨by decide, by decide⟩,
    (C2_getDky_interpolation testMem (by decide) (by decide)).1⟩

/-- Witness for C3 at a concrete state. -/
theorem C3_error_test_failure_witness :
    ((1:ℚ) < testMem.acnrm / testMem.tq 2 ∧ testMem.maxnef = 7)
    ∧ (CVDoErrorTest (V := ℚ) id id (fun a _ => a)
        (CVPredict testMem) testMem.tn 0).nef = 0 + 1 :=
  ⟨⟨by simp only [testMem, div_one]; decide, by decide⟩,
    (C3_error_test_failure id id (fun a _ => a) testMem 0
      (by simp only [testMem, div_one]; decide) (by decide)
      (fun _ => rfl) (fun _ => rfl) (fun _ => rfl) (fun _ => rfl)).2.1⟩

/-- Componentwise absolute value, N_VAbs of the vector module. -/
def N_VAbs (x : List ℚ) : List ℚ := x.map (fun v => |v|)

/-- Componentwise scaling, N_VScale. -/
def N_VScale (c : ℚ) (x : List ℚ) : List ℚ := x.map (fun v => c * v)

/-- Componentwise constant addition, N_VAddConst. -/
def N_VAddConst (x : List ℚ) (c : ℚ) : List ℚ := x.map (fun v => v + c)

/-- Componentwise linear sum, N_VLinearSum, on list vectors. -/
def N_VLinearSumL (a : ℚ) (x : List ℚ) (b : ℚ) (y : List ℚ) : List ℚ :=
  List.zipWith (fun u v => a * u + b * v) x y

/-- Minimum component, N_VMin (vectors are nonempty in the C code; the
value on the empty list is irrelevant). -/
def N_VMin : List ℚ → ℚ
  | [] => 0
  | v :: t => t.foldl min v

/-- Componentwise reciprocal, N_VInv. -/
def N_VInv (x : List ℚ) : List ℚ := x.map (fun v => v⁻¹)

/-- CVEwtSetSS (cvodes.c:3958-3970): tempv = rtol |ycur| + atol; fail when
min(tempv) is nonpositive, otherwise ewt = 1/tempv componentwise. -/
def CVEwtSetSS (rtol atol : ℚ) (ycur : List ℚ) : Option (List ℚ) :=
  let tempv := N_VAddConst (N_VScale rtol (N_VAbs ycur)) atol
  if N_VMin tempv ≤ 0 then none else some (N_VInv tempv)

/-- CVEwtSetSV (cvodes.c:3982-3992): tempv = rtol |ycur| + atol vector. -/
def CVEwtSetSV (rtol : ℚ) (atol : List ℚ) (ycur : List ℚ) : Option (List ℚ) :=
  let tempv := N_VLinearSumL rtol (N_VAbs ycur) 1 atol
  if N_VMin tempv ≤ 0 then none else some (N_VInv tempv)

/-- The tolerance tag with its absolute tolerance payload (itol = SS or SV). -/
inductive AtolSpec where
  | ss (atol : ℚ)
  | sv (atol : List ℚ)

/-- CVEwtSet dispatcher (cvodes.c:3928-3946). -/
def CVEwtSet (rtol : ℚ) (atol : AtolSpec) (ycur : List ℚ) : Option (List ℚ) :=
  match atol with
  | .ss a => CVEwtSetSS rtol a ycur
  | .sv a => CVEwtSetSV rtol a ycur

/-- Outcome at the caller of CVEwtSet. -/
inductive EwtOutcome where
  | ok (w : List ℚ)
  | ewtInvalid
deriving DecidableEq, Repr

/-- The caller pattern around CVEwtSet (cvodes.c:1192-1196): a FALSE return
aborts the invocation with the invalid-error-weight error. -/
def ewtSetAndCheck (rtol : ℚ) (atol : AtolSpec) (ycur : List ℚ) : EwtOutcome :=
  match CVEwtSet rtol atol ycur with
  | some w => .ok w
  | none => .ewtInvalid

lemma foldl_min_le_iff (c : ℚ) :
    ∀ (t : List ℚ) (v : ℚ), t.foldl min v ≤ c ↔ v ≤ c ∨ ∃ u ∈ t, u ≤ c := by
  intro t
  induction t with
  | nil => intro v; simp
  | cons a t ih =>
    intro v
    show (t.foldl min (min v a)) ≤ c ↔ _
    rw [ih (min v a), min_le_iff]
    simp only [List.mem_cons]
    constructor
    · rintro ((h | h) | ⟨u, hu, hc⟩)
      · exact Or.inl h
      · exact Or.inr ⟨a, Or.inl rfl, h⟩
      · exact Or.inr ⟨u, Or.inr hu, hc⟩
    · rintro (h | ⟨u, (rfl | hu), hc⟩)
      · exact Or.inl (Or.inl h)
      · exact Or.inl (Or.inr hc)
      · exact Or.inr ⟨u, hu, hc⟩

lemma N_VMin_le_iff (x : List ℚ) (hx : x ≠ []) (c : ℚ) :
    N_VMin x ≤ c ↔ ∃ u ∈ x, u ≤ c := by
  match x, hx with
  | v :: t, _ =>
    show t.foldl min v ≤ c ↔ _
    rw [foldl_min_le_iff c t v]
    simp [List.mem_cons]

lemma ewt_core (tempv : List ℚ) (ht : tempv ≠ []) :
    ((if N_VMin tempv ≤ 0 then none else some (N_VInv tempv)).isSome
        ↔ ∀ u ∈ tempv, 0 < u)
    ∧ (∀ w, (if N_VMin tempv ≤ 0 then none else some (N_VInv tempv)) = some w →
        w = tempv.map (fun v => v⁻¹) ∧ ∀ u ∈ w, 0 < u) := by
  by_cases hmin : N_VMin tempv ≤ 0
  · rw [if_pos hmin]
    constructor
    · constructor
      · intro hcon; exact absurd hcon (by simp)
      · intro hall
        exfalso
        rw [N_VMin_le_iff tempv ht 0] at hmin
        obtain ⟨u, hu, hle⟩ := hmin
        exact absurd (hall u hu) (not_lt.mpr hle)
    · intro w hw
      exact absurd hw (by simp)
  · rw [if_neg hmin]
    have hpos : ∀ u ∈ tempv, 0 < u := by
      intro u hu
      by_contra hnot
      push_neg at hnot
      exact hmin ((N_VMin_le_iff tempv ht 0).mpr ⟨u, hu, hnot⟩)
    constructor
    · simp only [Option.isSome_some, true_iff]
      exact hpos
    · intro w hw
      obtain rfl : N_VInv tempv = w := Option.some.inj hw
      refine ⟨rfl, ?_⟩
      intro u hu
      rw [N_VInv, List.mem_map] at hu
      obtain ⟨v, hv, rfl⟩ := hu
      exact inv_pos.mpr (hpos v hv)

/-- C4: for every current solution vector, error-weight construction succeeds
if and only if every component of the intermediate vector rtol |y| + atol
(scalar atol in SS mode, vector atol in SV mode) is strictly positive; on
success every component of ewt is the reciprocal 1/(rtol |y[k]| + atol[k])
and is strictly positive; and on any nonpositive component the routine
reports failure and the caller aborts the invocation with the invalid-ewt
error. -/
theorem C4_ewt_set (rtol : ℚ) (y : List ℚ) (hy : y ≠ []) :
    (∀ atol : ℚ,
      ((CVEwtSet rtol (.ss atol) y).isSome ↔ ∀ v ∈ y, 0 < rtol * |v| + atol)
      ∧ (∀ w, CVEwtSet rtol (.ss atol) y = some w →
          w = y.map (fun v => (rtol * |v| + atol)⁻¹) ∧ ∀ u ∈ w, 0 < u)
      ∧ (CVEwtSet rtol (.ss atol) y = none →
          ewtSetAndCheck rtol (.ss atol) y = .ewtInvalid))
    ∧ (∀ (atolV : List ℚ) (hlen : atolV.length = y.length),
      ((CVEwtSet rtol (.sv atolV) y).isSome ↔
        ∀ (k : ℕ) (hk : k < y.length),
          0 < rtol * |y.get ⟨k, hk⟩| + atolV.get ⟨k, by omega⟩)
      ∧ (∀ w, CVEwtSet rtol (.sv atolV) y = some w →
          w = List.zipWith (fun v a => (rtol * |v| + a)⁻¹) y atolV ∧ ∀ u ∈ w, 0 < u)
      ∧ (CVEwtSet rtol (.sv atolV) y = none →
          ewtSetAndCheck rtol (.sv atolV) y = .ewtInvalid)) := by
  constructor
  · intro atol
    have htempv : N_VAddConst (N_VScale rtol (N_VAbs y)) atol
        = y.map (fun v => rtol * |v| + atol) := by
      unfold N_VAddConst N_VScale N_VAbs
      rw [List.map_map, List.map_map]
      rfl
    have hne : y.map (fun v => rtol * |v| + atol) ≠ [] := by
      rw [ne_eq, List.map_eq_nil_iff]
      exact hy
    have hcore := ewt_core (y.map (fun v => rtol * |v| + atol)) hne
    have hiff : (∀ u ∈ y.map (fun v => rtol * |v| + atol), 0 < u)
        ↔ ∀ v ∈ y, 0 < rtol * |v| + atol := by
      constructor
      · intro hall v hv
        exact hall _ (List.mem_map.mpr ⟨v, hv, rfl⟩)
      · intro hall u hu
        obtain ⟨v, hv, rfl⟩ := List.mem_map.mp hu
        exact hall v hv
    have heq : CVEwtSet rtol (.ss atol) y
        = if N_VMin (y.map (fun v => rtol * |v| + atol)) ≤ 0 then none
          else some (N_VInv (y.map (fun v => rtol * |v| + atol))) := by
      show CVEwtSetSS rtol atol y = _
      unfold CVEwtSetSS
      rw [htempv]
    refine ⟨?_, ?_, ?_⟩
    · rw [heq, ← hiff]
      exact hcore.1
    · intro w hw
      rw [heq] at hw
      obtain ⟨hw1, hw2⟩ := hcore.2 w hw
      refine ⟨?_, hw2⟩
      rw [hw1, List.map_map]
      rfl
    · intro hnone
      unfold ewtSetAndCheck
      rw [hnone]
  · intro atolV hlen
    have htempv : N_VLinearSumL rtol (N_VAbs y) 1 atolV
        = List.zipWith (fun v a => rtol * |v| + a) y atolV := by
      unfold N_VLinearSumL N_VAbs
      rw [List.zipWith_map_left]
      simp only [one_mul]
    have hlenz : (List.zipWith (fun v a => rtol * |v| + a) y atolV).length = y.length := by
      rw [List.length_zipWith, hlen, min_self]
    have hne : List.zipWith (fun v a => rtol * |v| + a) y atolV ≠ [] := by
      have : 0 < y.length := List.length_pos.mpr hy
      intro hcon
      rw [← List.length_eq_zero] at hcon
      omega
    have hcore := ewt_core (List.zipWith (fun v a => rtol * |v| + a) y atolV) hne
    have hiff : (∀ u ∈ List.zipWith (fun v a => rtol * |v| + a) y atolV, 0 < u)
        ↔ ∀ (k : ℕ) (hk : k < y.length),
            0 < rtol * |y.get ⟨k, hk⟩| + atolV.get ⟨k, by omega⟩ := by
      constructor
      · intro hall k hk
        have hkz : k < (List.zipWith (fun v a => rtol * |v| + a) y atolV).length := by
          omega
        have hmem : (List.zipWith (fun v a => rtol * |v| + a) y atolV).get ⟨k, hkz⟩
            ∈ List.zipWith (fun v a => rtol * |v| + a) y atolV :=
          List.get_mem _ _ hkz
        have hval : (List.zipWith (fun v a => rtol * |v| + a) y atolV).get ⟨k, hkz⟩
            = rtol * |y.get ⟨k, hk⟩| + atolV.get ⟨k, by omega⟩ := by
          rw [List.get_eq_getElem, List.get_eq_getElem, List.get_eq_getElem,
            List.getElem_zipWith]
        rw [← hval]
        exact hall _ hmem
      · intro hall u hu
        rw [List.mem_iff_getElem] at hu
        obtain ⟨k, hkz, hval⟩ := hu
        have hky : k < y.length := by
          rw [hlenz] at hkz
          exact hkz
        have := hall k hky
        rw [← hval, List.getElem_zipWith]
        rw [List.get_eq_getElem, List.get_eq_getElem] at this
        exact this
    have heq : CVEwtSet rtol (.sv atolV) y
        = if N_VMin (List.zipWith (fun v a => rtol * |v| + a) y atolV) ≤ 0 then none
          else some (N_VInv (List.zipWith (fun v a => rtol * |v| + a) y atolV)) := by
      show CVEwtSetSV rtol atolV y = _
      unfold CVEwtSetSV
      rw [htempv]
    refine ⟨?_, ?_, ?_⟩
    · rw [heq, ← hiff]
      exact hcore.1
    · intro w hw
      rw [heq] at hw
      obtain ⟨hw1, hw2⟩ := hcore.2 w hw
      refine ⟨?_, hw2⟩
      rw [hw1, List.map_zipWith]
    · intro hnone
      unfold ewtSetAndCheck
      rw [hnone]

/-- Witness for C4 at a concrete vector. -/
theorem C4_ewt_set_witness :
    ([(1:ℚ), -2] ≠ ([] : List ℚ))
    ∧ (CVEwtSet 0 (.ss 1) [(1:ℚ), -2] = none →
        ewtSetAndCheck 0 (.ss 1) [(1:ℚ), -2] = .ewtInvalid) :=
  ⟨by simp, ((C4_ewt_set 0 [(1:ℚ), -2] (by simp)).1 1).2.2⟩

/-- The factorial loop of CVBDFStab (cvodes.c:6978-6979):
  factorial = 1; for (i = 1; i <= q-1; i++) factorial *= i;
so the computed value is (q-1)!. -/
def bdfFactorial (q : ℕ) : ℕ := (List.range' 1 (q - 1)).foldl (· * ·) 1

lemma foldl_mul_range' : ∀ n : ℕ, (List.range' 1 n).foldl (· * ·) 1 = Nat.factorial n := by
  intro n
  induction n with
  | zero => rfl
  | succ n ih =>
    rw [List.range'_concat, List.foldl_append, ih]
    show Nat.factorial n * (1 + 1 * n) = Nat.factorial (n + 1)
    rw [Nat.factorial_succ]
    ring

lemma bdfFactorial_eq (q : ℕ) : bdfFactorial q = Nat.factorial (q - 1) :=
  foldl_mul_range' (q - 1)

section BDFStab

variable {V : Type*}

/-- CVBDFStab (cvodes.c:6966-7015).  The WRMS norm N_VWrmsNorm and the
root-analysis routine CVsldet are passed as parameters wrms and sldet; the
order-reduction action on a stability-limit violation (ldflag > 3) and the
nscon reset are modelled exactly.  The two nested shift loops
  for (k = 1; k <= 3; k++) for (i = 5; i >= 2; i--) ssdat[i][k] = ssdat[i-1][k];
read only entries not yet written in the pass (i descends), so the updated
window is the given pointwise function of the old one. -/
def CVBDFStab (wrms : V → V → ℚ) (sldet : CVMem V → ℤ) (s : CVMem V) : CVMem V :=
  let s1 : CVMem V :=
    if 3 ≤ s.q then
      let factorial := bdfFactorial s.q
      let sq : ℚ := (factorial : ℚ) * s.q * (s.q + 1) * s.acnrm / s.tq 5
      let sqm1 : ℚ := (factorial : ℚ) * s.q * wrms (s.zn s.q) s.ewt
      let sqm2 : ℚ := (factorial : ℚ) * wrms (s.zn (s.q - 1)) s.ewt
      { s with ssdat := fun i k =>
          if i = 1 ∧ k = 1 then sqm2 * sqm2
          else if i = 1 ∧ k = 2 then sqm1 * sqm1
          else if i = 1 ∧ k = 3 then sq * sq
          else if 2 ≤ i ∧ i ≤ 5 ∧ 1 ≤ k ∧ k ≤ 3 then s.ssdat (i-1) k
          else s.ssdat i k }
    else s
  if s1.q ≤ s.qprime then
    if 3 ≤ s1.q ∧ s1.q + 5 ≤ s1.nscon then
      let ldflag := sldet s1
      if 3 < ldflag then
        let eta1 := min s1.etaqm1 s1.etamax
        let eta2 := eta1 / max 1 (|s1.h| * s1.hmax_inv * eta1)
        { s1 with qprime := s1.q - 1, eta := eta2, hprime := s1.h * eta2,
                  nor := s1.nor + 1 }
      else s1
    else s1
  else { s1 with nscon := 0 }

lemma CVBDFStab_ssdat (wrms : V → V → ℚ) (sldet : CVMem V → ℤ) (s : CVMem V)
    (hq : 3 ≤ s.q) :
    (CVBDFStab wrms sldet s).ssdat = fun i k =>
      if i = 1 ∧ k = 1 then
        (((bdfFactorial s.q : ℚ)) * wrms (s.zn (s.q - 1)) s.ewt)
          * (((bdfFactorial s.q : ℚ)) * wrms (s.zn (s.q - 1)) s.ewt)
      else if i = 1 ∧ k = 2 then
        (((bdfFactorial s.q : ℚ)) * s.q * wrms (s.zn s.q) s.ewt)
          * (((bdfFactorial s.q : ℚ)) * s.q * wrms (s.zn s.q) s.ewt)
      else if i = 1 ∧ k = 3 then
        (((bdfFactorial s.q : ℚ)) * s.q * (s.q + 1) * s.acnrm / s.tq 5)
          * (((bdfFactorial s.q : ℚ)) * s.q * (s.q + 1) * s.acnrm / s.tq 5)
      else if 2 ≤ i ∧ i ≤ 5 ∧ 1 ≤ k ∧ k ≤ 3 then s.ssdat (i-1) k
      else s.ssdat i k := by
  unfold CVBDFStab
  rw [if_pos hq]
  simp only []
  split_ifs <;> rfl

/-- C5 corrected: on a BDF step with q at least 3, the stability-limit
detector shifts the five-row window down by one row and stores at the top the
squares of sq = (q-1)! q (q+1) acnrm / tq[5], sqm1 = (q-1)! q wrms(zn[q], ewt)
and sqm2 = (q-1)! wrms(zn[q-1], ewt): the factorial factor computed by the
code is (q-1)!, the factorial of q - 1, not of the current order q. -/
theorem C5_stab_window {V : Type*} (wrms : V → V → ℚ) (sldet : CVMem V → ℤ)
    (s : CVMem V) (hq : 3 ≤ s.q) :
    (CVBDFStab wrms sldet s).ssdat 1 1
        = (((Nat.factorial (s.q - 1) : ℚ)) * wrms (s.zn (s.q - 1)) s.ewt)^2
    ∧ (CVBDFStab wrms sldet s).ssdat 1 2
        = (((Nat.factorial (s.q - 1) : ℚ)) * s.q * wrms (s.zn s.q) s.ewt)^2
    ∧ (CVBDFStab wrms sldet s).ssdat 1 3
        = (((Nat.factorial (s.q - 1) : ℚ)) * s.q * (s.q + 1) * s.acnrm / s.tq 5)^2
    ∧ ∀ i k, 2 ≤ i → i ≤ 5 → 1 ≤ k → k ≤ 3 →
        (CVBDFStab wrms sldet s).ssdat i k = s.ssdat (i-1) k := by
  rw [CVBDFStab_ssdat wrms sldet s hq]
  beta_reduce
  refine ⟨?_, ?_, ?_, ?_⟩
  · rw [if_pos ⟨rfl, rfl⟩, bdfFactorial_eq, sq]
  · rw [if_neg (by omega), if_pos ⟨rfl, rfl⟩, bdfFactorial_eq, sq]
  · rw [if_neg (by omega), if_neg (by omega), if_pos ⟨rfl, rfl⟩, bdfFactorial_eq, sq]
  · intro i k h2 h5 h1 h3
    rw [if_neg (by omega), if_neg (by omega), if_neg (by omega),
      if_pos ⟨h2, h5, h1, h3⟩]

end BDFStab

/-- Concrete state with q = 3 for the stability-limit detector. -/
def stabMem : CVMem ℚ := { testMem with q := 3, acnrm := 1 }

/-- C5 counterexample: at order q = 3 with acnrm = 1, tq[5] = 1 and a WRMS
norm returning 1, the stored top entry ssdat[1][3] is (2*3*4)^2 = 576, not
the square of q! q (q+1) acnrm / tq[5] = (6*3*4)^2 = 5184 claimed with q!
the factorial of the current order q. -/
theorem C5_stab_window_counterexample :
    (CVBDFStab (V := ℚ) (fun _ _ => 1) (fun _ => 0) stabMem).ssdat 1 3
      ≠ ((Nat.factorial stabMem.q : ℚ) * stabMem.q * (stabMem.q + 1)
          * stabMem.acnrm / stabMem.tq 5)^2 := by
  rw [CVBDFStab_ssdat (fun _ _ => 1) (fun _ => 0) stabMem (by decide)]
  beta_reduce
  rw [if_neg (by decide), if_neg (by decide), if_pos ⟨rfl, rfl⟩]
  rw [bdfFactorial_eq]
  show ((Nat.factorial 2 : ℚ) * (3:ℕ) * ((3:ℕ) + 1) * 1 / 1)
      * ((Nat.factorial 2 : ℚ) * (3:ℕ) * ((3:ℕ) + 1) * 1 / 1)
    ≠ ((Nat.factorial 3 : ℚ) * (3:ℕ) * ((3:ℕ) + 1) * 1 / 1)^2
  norm_num [Nat.factorial]

/-- Witness for the corrected C5 at a concrete state. -/
theorem C5_stab_window_witness :
    3 ≤ stabMem.q
    ∧ (CVBDFStab (V := ℚ) (fun _ _ => 1) (fun _ => 0) stabMem).ssdat 1 1
      = (((Nat.factorial (stabMem.q - 1) : ℚ))
          * (fun (_ _ : ℚ) => (1:ℚ)) (stabMem.zn (stabMem.q - 1)) stabMem.ewt)^2 :=
  ⟨by decide, (C5_stab_window (fun _ _ => 1) (fun _ => 0) stabMem (by decide)).1⟩

/-- The fields of the integrator memory consulted by the STAGGERED1
statistics getters.  The per-sensitivity counter arrays cv_nniS1 and
cv_ncfnS1 are represented by the addresses at which they live in an abstract
integer store. -/
structure GetterMem where
  sensi : Bool
  ism : ISM
  nniS1addr : ℕ
  ncfnS1addr : ℕ

/-- Return codes of the optional-output getters. -/
inductive GetterRet where
  | cvgNoMem
  | cvgNoSens
  | okay
deriving DecidableEq, Repr

/-- CVodeGetNumStgrSensNonlinSolvIters (cvodes.c:3644-3665).  The store maps
addresses to integers; the int pointer parameter nSTGR1niters is a local
holding an optional address.  The source performs
  if (ism==STAGGERED1) nSTGR1niters = nniS1; else nSTGR1niters = NULL;
that is, it reassigns the local parameter and never writes through it; the
function result is the triple (return code, final store, final local). -/
def CVodeGetNumStgrSensNonlinSolvIters (mem : Option GetterMem) (store : ℕ → ℤ)
    (nSTGR1niters : Option ℕ) : GetterRet × (ℕ → ℤ) × Option ℕ :=
  match mem with
  | none => (.cvgNoMem, store, nSTGR1niters)
  | some s =>
    if s.sensi = false then (.cvgNoSens, store, nSTGR1niters)
    else
      let nSTGR1niters := if s.ism = .staggered1 then some s.nniS1addr else none
      (.okay, store, nSTGR1niters)

/-- CVodeGetNumStgrSensNonlinSolvConvFails (cvodes.c:3669-3689), the
companion getter with the same parameter-assignment body. -/
def CVodeGetNumStgrSensNonlinSolvConvFails (mem : Option GetterMem) (store : ℕ → ℤ)
    (nSTGR1ncfails : Option ℕ) : GetterRet × (ℕ → ℤ) × Option ℕ :=
  match mem with
  | none => (.cvgNoMem, store, nSTGR1ncfails)
  | some s =>
    if s.sensi = false then (.cvgNoSens, store, nSTGR1ncfails)
    else
      let nSTGR1ncfails := if s.ism = .staggered1 then some s.ncfnS1addr else none
      (.okay, store, nSTGR1ncfails)

/-- C6: on a non-null, sensitivity-enabled integrator, both STAGGERED1
statistics getters return OKAY yet leave the entire store unchanged: the
assignment overwrites only the local parameter, so the cell the caller's
pointer designates keeps its value, whether or not ism is STAGGERED1. -/
theorem C6_stgr1_getters_do_not_write (s : GetterMem) (store : ℕ → ℤ)
    (ptr : Option ℕ) (addr : ℕ) (hs : s.sensi = true) :
    ((CVodeGetNumStgrSensNonlinSolvIters (some s) store ptr).1 = .okay
      ∧ (CVodeGetNumStgrSensNonlinSolvIters (some s) store ptr).2.1 = store
      ∧ (CVodeGetNumStgrSensNonlinSolvIters (some s) store ptr).2.1 addr = store addr)
    ∧ ((CVodeGetNumStgrSensNonlinSolvConvFails (some s) store ptr).1 = .okay
      ∧ (CVodeGetNumStgrSensNonlinSolvConvFails (some s) store ptr).2.1 = store
      ∧ (CVodeGetNumStgrSensNonlinSolvConvFails (some s) store ptr).2.1 addr
          = store addr) := by
  unfold CVodeGetNumStgrSensNonlinSolvIters CVodeGetNumStgrSensNonlinSolvConvFails
  simp only [hs]
  by_cases hi : s.ism = .staggered1 <;> simp only [hi] <;>
    exact ⟨⟨rfl, rfl, rfl⟩, ⟨rfl, rfl, rfl⟩⟩

/-- Witness for C6 at a concrete getter state. -/
theorem C6_stgr1_getters_do_not_write_witness :
    (GetterMem.mk true .staggered1 5 6).sensi = true
    ∧ (CVodeGetNumStgrSensNonlinSolvIters (some (GetterMem.mk true .staggered1 5 6))
        (fun _ => 7) (some 9)).1 = .okay :=
  ⟨rfl, (C6_stgr1_getters_do_not_write (GetterMem.mk true .staggered1 5 6)
    (fun _ => 7) (some 9) 9 rfl).1.1⟩

/-- Values of the nflag argument of CVNls / CVNlsNewton. -/
inductive NFlag where
  | firstCall
  | prevConvFail
  | prevErrFail
deriving DecidableEq, Repr

/-- Values of the convfail input to lsetup. -/
inductive Convfail where
  | noFailures
  | failBadJ
  | failOther
deriving DecidableEq, Repr

section NlsNewton

variable {V : Type*}

/-- The convfail initialisation of CVNlsNewton (cvodes.c:5497-5498). -/
def cvNlsNewtonConvfailInit (nflag : NFlag) : Convfail :=
  if nflag = .firstCall ∨ nflag = .prevErrFail then .noFailures else .failOther

/-- The setup decision of CVNlsNewton (cvodes.c:5500-5515): with a setup
routine present, callSetup is the five-way disjunction, forced to TRUE by
forceSetup; without one, callSetup is FALSE (and the convergence rates are
reset to one, an effect outside this decision). -/
def cvNlsNewtonCallSetup (s : CVMem V) (nflag : NFlag) : Bool :=
  if s.setupNonNull then
    let callSetup := decide ((nflag = .prevConvFail) ∨ (nflag = .prevErrFail)
      ∨ (s.nst = 0) ∨ (s.nstlp + MSBP ≤ s.nst) ∨ (DGMAX < |s.gamrat - 1|))
    if s.forceSetup then true else callSetup
  else false

/-- The lsetup invocation block of CVNlsNewton (cvodes.c:5532-5546): call
lsetup (passed as a parameter returning its error flag and the new jcur),
then record nsetups, forceSetup, gamrat, gammap, crate, crateS and nstlp.
The returned pair is the updated state and the lsetup error flag. -/
def cvNewtonSetupBlock (lsetup : CVMem V → Convfail → ℤ × Bool)
    (s : CVMem V) (convfail : Convfail) : CVMem V × ℤ :=
  let r := lsetup s convfail
  ({ s with
      nsetups := s.nsetups + 1, forceSetup := false, gamrat := 1,
      gammap := s.gamma, crate := 1, crateS := 1, nstlp := s.nst,
      jcur := r.2 }, r.1)

/-- C7: on entry to the Newton nonlinear solver with a linear-solver setup
routine attached, setup is scheduled exactly when nst = 0, or nst is at least
nstlp + MSBP (MSBP = 20), or the gamma ratio has drifted by more than
DGMAX = 0.3 from one, or the previous nonlinear or error test failed, or a
setup is forced; and after every invocation of the setup block the state
satisfies nstlp = nst, gammap = gamma, gamrat = 1 and crate = 1. -/
theorem C7_newton_setup (s : CVMem V) (nflag : NFlag)
    (hsnn : s.setupNonNull = true) :
    (cvNlsNewtonCallSetup s nflag = true ↔
      (s.nst = 0 ∨ s.nstlp + 20 ≤ s.nst ∨ (3:ℚ)/10 < |s.gamrat - 1|
        ∨ nflag = .prevConvFail ∨ nflag = .prevErrFail ∨ s.forceSetup = true))
    ∧ ∀ (lsetup : CVMem V → Convfail → ℤ × Bool) (convfail : Convfail),
        (cvNewtonSetupBlock lsetup s convfail).1.nstlp = s.nst
        ∧ (cvNewtonSetupBlock lsetup s convfail).1.gammap
            = (cvNewtonSetupBlock lsetup s convfail).1.gamma
        ∧ (cvNewtonSetupBlock lsetup s convfail).1.gamrat = 1
        ∧ (cvNewtonSetupBlock lsetup s convfail).1.crate = 1 := by
  constructor
  · unfold cvNlsNewtonCallSetup
    rw [hsnn]
    simp only [if_true]
    by_cases hf : s.forceSetup
    · rw [if_pos hf]
      exact iff_of_true rfl (Or.inr (Or.inr (Or.inr (Or.inr (Or.inr hf)))))
    · rw [if_neg hf]
      rw [decide_eq_true_iff]
      unfold MSBP DGMAX
      constructor
      · rintro (h | h | h | h | h)
        · exact Or.inr (Or.inr (Or.inr (Or.inl h)))
        · exact Or.inr (Or.inr (Or.inr (Or.inr (Or.inl h))))
        · exact Or.inl h
        · exact Or.inr (Or.inl h)
        · exact Or.inr (Or.inr (Or.inl h))
      · rintro (h | h | h | h | h | h)
        · exact Or.inr (Or.inr (Or.inl h))
        · exact Or.inr (Or.inr (Or.inr (Or.inl h)))
        · exact Or.inr (Or.inr (Or.inr (Or.inr h)))
        · exact Or.inl h
        · exact Or.inr (Or.inl h)
        · exact absurd h hf
  · intro lsetup convfail
    exact ⟨rfl, rfl, rfl, rfl⟩

/-- Witness for C7 at a concrete state. -/
theorem C7_newton_setup_witness :
    testMem.setupNonNull = true
    ∧ (cvNlsNewtonCallSetup testMem .prevConvFail = true ↔
      (testMem.nst = 0 ∨ testMem.nstlp + 20 ≤ testMem.nst
        ∨ (3:ℚ)/10 < |testMem.gamrat - 1|
        ∨ NFlag.prevConvFail = .prevConvFail ∨ NFlag.prevConvFail = .prevErrFail
        ∨ testMem.forceSetup = true)) :=
  ⟨rfl, (C7_newton_setup testMem .prevConvFail rfl).1⟩

end NlsNewton


section NlsLoops

variable {V : Type*} [AddCommGroup V] [Module ℚ V]

/-- CVSensNorm (cvodes.c): the maximum WRMS norm over the sensitivity
vectors, starting from index 0 and folding is = 1..Ns-1. -/
def CVSensNorm (wrms : V → V → ℚ) (Ns : ℕ) (xS wS : ℕ → V) : ℚ :=
  (List.range' 1 (Ns - 1)).foldl (fun nrm i => max nrm (wrms (xS i) (wS i)))
    (wrms (xS 0) (wS 0))

/-- CVSensUpdateNorm (cvodes.c): max of an old norm and CVSensNorm. -/
def CVSensUpdateNorm (wrms : V → V → ℚ) (Ns : ℕ) (old : ℚ) (xS wS : ℕ → V) : ℚ :=
  max old (CVSensNorm wrms Ns xS wS)

/-- Context of the nonlinear corrector loops: the fields of the integrator
memory the loop bodies of CVNlsFunctional and CVNewtonIteration read.
znS is indexed sensitivity-first. -/
structure NlsCtx (V : Type*) where
  tn : ℚ
  h : ℚ
  rl1 : ℚ
  gamma : ℚ
  tq : ℕ → ℚ
  maxcor : ℕ
  Ns : ℕ
  do_sensi_sim : Bool
  errconFull : Bool
  jcur : Bool
  setupNonNull : Bool
  zn : ℕ → V
  znS : ℕ → ℕ → V
  ewt : V
  ewtS : ℕ → V

/-- Return values of the nonlinear solver loops. -/
inductive NlsRet where
  | solved
  | convFail
  | tryAgain
  | solveFailUnrec
deriving DecidableEq, Repr

/-- Observable outcome of a corrector loop: the returned flag, the number of
loop iterations executed (the nni increments), and the final crate, acnrm,
accumulated correction and iterate. -/
structure NlsOut (V : Type*) where
  ret : NlsRet
  iters : ℕ
  crate : ℚ
  acnrm : ℚ
  acor : V
  y : V

/-- The functional-iteration correction update (cvodes.c:5388-5390):
tempv := rl1 (h tempv - zn[1]). -/
def funcCorr (ctx : NlsCtx V) (tempv0 : V) : V :=
  ctx.rl1 • (ctx.h • tempv0 - ctx.zn 1)

/-- The sensitivity analog of funcCorr (cvodes.c:5392-5397). -/
def funcCorrS (ctx : NlsCtx V) (tempvS0 : ℕ → V) : ℕ → V :=
  fun i => ctx.rl1 • (ctx.h • tempvS0 i - ctx.znS i 1)

/-- The combined WRMS norm of the incremental correction used by both
corrector loops (cvodes.c:5406-5408, 5653-5658): the state norm, extended
over the sensitivities in the SIMULTANEOUS case. -/
def nlsDel (ctx : NlsCtx V) (wrms : V → V → ℚ) (d : V) (dS : ℕ → V) : ℚ :=
  if ctx.do_sensi_sim then
    CVSensUpdateNorm wrms ctx.Ns (wrms d ctx.ewt) dS ctx.ewtS
  else wrms d ctx.ewt

/-- The crate update (cvodes.c:5426, 5669): for m > 0,
crate := max(CRDOWN crate, Del/Delp). -/
def crateUpd (m : ℕ) (crate Del delp : ℚ) : ℚ :=
  if 0 < m then max (CRDOWN * crate) (Del / delp) else crate

/-- The convergence quantity dcon = Del min(1, crate) / tq[4]
(cvodes.c:5427, 5670). -/
def nlsDcon (ctx : NlsCtx V) (Del crate1 : ℚ) : ℚ :=
  Del * min 1 crate1 / ctx.tq 4

/-- The acnrm recorded on convergence (cvodes.c:5429-5437, 5672-5680). -/
def nlsAcnrm (ctx : NlsCtx V) (wrms : V → V → ℚ) (m : ℕ) (Del : ℚ)
    (acor : V) (acorS : ℕ → V) : ℚ :=
  if m = 0 then Del
  else if ctx.do_sensi_sim = true ∧ ctx.errconFull = true then
    CVSensUpdateNorm wrms ctx.Ns (wrms acor ctx.ewt) acorS ctx.ewtS
  else wrms acor ctx.ewt

/-- The exit test of both corrector loops (cvodes.c:5444, 5690): stop at
m = maxcor iterations or on divergence Del > RDIV Delp for m at least 2,
where m here is the already incremented counter. -/
def nlsExitCond (maxcor m1 : ℕ) (Del delp : ℚ) : Prop :=
  m1 = maxcor ∨ (2 ≤ m1 ∧ RDIV * delp < Del)

instance (maxcor m1 : ℕ) (Del delp : ℚ) : Decidable (nlsExitCond maxcor m1 Del delp) := by
  unfold nlsExitCond
  infer_instance

/-- The loop of CVNlsFunctional (cvodes.c:5382-5460), by recursion on fuel;
the C loop has no bound of its own, and the termination theorem shows fuel
maxcor is never exhausted.  Arguments after the fuel are the mutable locals:
the iteration count m, crate, Delp, the executed-iteration count (the nni
increments), the current f value tempv (and sensitivity analog), and the
previous correction acor (and analog).  The user right-hand side f and the
sensitivity right-hand side CVSensRhs are parameters.  On convergence the
acnrm cases of cvodes.c:5429-5437 are folded through nlsAcnrm with
Del = delS when do_sensi_sim and errcon = FULL, del otherwise. -/
def cvNlsFunctionalLoop (ctx : NlsCtx V) (wrms : V → V → ℚ) (f : ℚ → V → V)
    (sensRhs : ℚ → V → V → (ℕ → V) → (ℕ → V)) :
    ℕ → ℕ → ℚ → ℚ → ℕ → V → (ℕ → V) → V → (ℕ → V) → Option (NlsOut V)
  | 0, _, _, _, _, _, _, _, _ => none
  | fuel+1, m, crate, delp, iters, tempv0, tempvS0, acor0, acorS0 =>
    if nlsDcon ctx (nlsDel ctx wrms (funcCorr ctx tempv0 - acor0)
          (fun i => funcCorrS ctx tempvS0 i - acorS0 i))
        (crateUpd m crate (nlsDel ctx wrms (funcCorr ctx tempv0 - acor0)
          (fun i => funcCorrS ctx tempvS0 i - acorS0 i)) delp) ≤ 1 then
      some ⟨.solved, iters + 1,
        crateUpd m crate (nlsDel ctx wrms (funcCorr ctx tempv0 - acor0)
          (fun i => funcCorrS ctx tempvS0 i - acorS0 i)) delp,
        nlsAcnrm ctx wrms m
          (if ctx.do_sensi_sim = true ∧ ctx.errconFull = true then
            nlsDel ctx wrms (funcCorr ctx tempv0 - acor0)
              (fun i => funcCorrS ctx tempvS0 i - acorS0 i)
          else wrms (funcCorr ctx tempv0 - acor0) ctx.ewt)
          (funcCorr ctx tempv0) (funcCorrS ctx tempvS0),
        funcCorr ctx tempv0, ctx.zn 0 + funcCorr ctx tempv0⟩
    else if nlsExitCond ctx.maxcor (m + 1)
        (nlsDel ctx wrms (funcCorr ctx tempv0 - acor0)
          (fun i => funcCorrS ctx tempvS0 i - acorS0 i)) delp then
      some ⟨.convFail, iters + 1,
        crateUpd m crate (nlsDel ctx wrms (funcCorr ctx tempv0 - acor0)
          (fun i => funcCorrS ctx tempvS0 i - acorS0 i)) delp,
        0, funcCorr ctx tempv0, ctx.zn 0 + funcCorr ctx tempv0⟩
    else
      cvNlsFunctionalLoop ctx wrms f sensRhs fuel (m + 1)
        (crateUpd m crate (nlsDel ctx wrms (funcCorr ctx tempv0 - acor0)
          (fun i => funcCorrS ctx tempvS0 i - acorS0 i)) delp)
        (nlsDel ctx wrms (funcCorr ctx tempv0 - acor0)
          (fun i => funcCorrS ctx tempvS0 i - acorS0 i))
        (iters + 1)
        (f ctx.tn (ctx.zn 0 + funcCorr ctx tempv0))
        (sensRhs ctx.tn (ctx.zn 0 + funcCorr ctx tempv0)
          (f ctx.tn (ctx.zn 0 + funcCorr ctx tempv0))
          (fun i => ctx.znS i 0 + funcCorrS ctx tempvS0 i))
        (funcCorr ctx tempv0) (funcCorrS ctx tempvS0)

/-- The sensitivity lsolve loop of CVNewtonIteration (cvodes.c:5636-5648):
solve each right-hand side in turn, stopping at the first nonzero lsolve
return; slice n is processed after the slices below n. -/
def sensLsolveAll (lsolve : V → V → V → V → ℤ × V) (y ftemp : V) (ewtS : ℕ → V) :
    ℕ → (ℕ → V) → Except ℤ (ℕ → V)
  | 0, bS => .ok bS
  | n+1, bS =>
    match sensLsolveAll lsolve y ftemp ewtS n bS with
    | .error e => .error e
    | .ok bS1 =>
      if (lsolve (bS1 n) (ewtS n) y ftemp).1 = 0 then
        .ok (Function.update bS1 n (lsolve (bS1 n) (ewtS n) y ftemp).2)
      else .error (lsolve (bS1 n) (ewtS n) y ftemp).1

/-- The Newton residual loaded into tempv (cvodes.c:5614-5615):
tempv := gamma ftemp - (rl1 zn[1] + acor). -/
def newtonResid (ctx : NlsCtx V) (ftemp acor0 : V) : V :=
  ctx.gamma • ftemp - (ctx.rl1 • ctx.zn 1 + acor0)

/-- The Newton increment returned by lsolve on the residual (cvodes.c:5618-5619). -/
def newtonB (ctx : NlsCtx V) (lsolve : V → V → V → V → ℤ × V)
    (ftemp acor0 y0 : V) : V :=
  (lsolve (newtonResid ctx ftemp acor0) ctx.ewt y0 ftemp).2

/-- The sensitivity residuals of CVNewtonIteration (cvodes.c:5636-5639). -/
def newtonSensResid (ctx : NlsCtx V) (ftempS acorS0 : ℕ → V) : ℕ → V :=
  fun i => ctx.gamma • ftempS i - (ctx.rl1 • ctx.znS i 1 + acorS0 i)

/-- The sensitivity linear solves (cvodes.c:5634-5648), executed only in the
SIMULTANEOUS case. -/
def newtonSensSolve (ctx : NlsCtx V) (lsolve : V → V → V → V → ℤ × V)
    (y0 ftemp : V) (ftempS acorS0 : ℕ → V) : Except ℤ (ℕ → V) :=
  if ctx.do_sensi_sim then
    sensLsolveAll lsolve y0 ftemp ctx.ewtS ctx.Ns (newtonSensResid ctx ftempS acorS0)
  else .ok (fun _ => 0)

/-- The loop of CVNewtonIteration (cvodes.c:5590-5708), by recursion on
fuel; the C loop has no bound of its own, and the termination theorem shows
fuel maxcor is never exhausted.  The linear solve lsolve(b, weight, ycur,
fcur) is a parameter returning its flag and the overwritten b.  Mutable
locals follow the fuel: m, crate, Delp, the executed-iteration count, the
current f value ftemp (and sensitivity analog), the accumulated correction
acor (and analog) and the current iterate y (and analog). -/
def cvNewtonIterationLoop (ctx : NlsCtx V) (wrms : V → V → ℚ) (f : ℚ → V → V)
    (sensRhs : ℚ → V → V → (ℕ → V) → (ℕ → V))
    (lsolve : V → V → V → V → ℤ × V) :
    ℕ → ℕ → ℚ → ℚ → ℕ → V → (ℕ → V) → V → (ℕ → V) → V → (ℕ → V) →
      Option (NlsOut V)
  | 0, _, _, _, _, _, _, _, _, _, _ => none
  | fuel+1, m, crate, delp, iters, ftemp, ftempS, acor0, acorS0, y0, _yS0 =>
    if (lsolve (newtonResid ctx ftemp acor0) ctx.ewt y0 ftemp).1 < 0 then
      some ⟨.solveFailUnrec, iters + 1, crate, 0, acor0, y0⟩
    else if 0 < (lsolve (newtonResid ctx ftemp acor0) ctx.ewt y0 ftemp).1 then
      (if ctx.jcur = false ∧ ctx.setupNonNull = true then
        some ⟨.tryAgain, iters + 1, crate, 0, acor0, y0⟩
      else some ⟨.convFail, iters + 1, crate, 0, acor0, y0⟩)
    else
      match newtonSensSolve ctx lsolve y0 ftemp ftempS acorS0 with
      | .error e =>
        if e < 0 then some ⟨.solveFailUnrec, iters + 1, crate, 0, acor0, y0⟩
        else if ctx.jcur = false ∧ ctx.setupNonNull = true then
          some ⟨.tryAgain, iters + 1, crate, 0, acor0, y0⟩
        else some ⟨.convFail, iters + 1, crate, 0, acor0, y0⟩
      | .ok bS =>
        if nlsDcon ctx (nlsDel ctx wrms (newtonB ctx lsolve ftemp acor0 y0) bS)
            (crateUpd m crate
              (nlsDel ctx wrms (newtonB ctx lsolve ftemp acor0 y0) bS) delp) ≤ 1 then
          some ⟨.solved, iters + 1,
            crateUpd m crate
              (nlsDel ctx wrms (newtonB ctx lsolve ftemp acor0 y0) bS) delp,
            nlsAcnrm ctx wrms m
              (if ctx.do_sensi_sim = true ∧ ctx.errconFull = true then
                nlsDel ctx wrms (newtonB ctx lsolve ftemp acor0 y0) bS
              else wrms (newtonB ctx lsolve ftemp acor0 y0) ctx.ewt)
              (acor0 + newtonB ctx lsolve ftemp acor0 y0)
              (fun i => acorS0 i + bS i),
            acor0 + newtonB ctx lsolve ftemp acor0 y0,
            ctx.zn 0 + (acor0 + newtonB ctx lsolve ftemp acor0 y0)⟩
        else if nlsExitCond ctx.maxcor (m + 1)
            (nlsDel ctx wrms (newtonB ctx lsolve ftemp acor0 y0) bS) delp then
          (if ctx.jcur = false ∧ ctx.setupNonNull = true then
            some ⟨.tryAgain, iters + 1,
              crateUpd m crate
                (nlsDel ctx wrms (newtonB ctx lsolve ftemp acor0 y0) bS) delp,
              0, acor0 + newtonB ctx lsolve ftemp acor0 y0,
              ctx.zn 0 + (acor0 + newtonB ctx lsolve ftemp acor0 y0)⟩
          else
            some ⟨.convFail, iters + 1,
              crateUpd m crate
                (nlsDel ctx wrms (newtonB ctx lsolve ftemp acor0 y0) bS) delp,
              0, acor0 + newtonB ctx lsolve ftemp acor0 y0,
              ctx.zn 0 + (acor0 + newtonB ctx lsolve ftemp acor0 y0)⟩)
        else
          cvNewtonIterationLoop ctx wrms f sensRhs lsolve fuel (m + 1)
            (crateUpd m crate
              (nlsDel ctx wrms (newtonB ctx lsolve ftemp acor0 y0) bS) delp)
            (nlsDel ctx wrms (newtonB ctx lsolve ftemp acor0 y0) bS)
            (iters + 1)
            (f ctx.tn (ctx.zn 0 + (acor0 + newtonB ctx lsolve ftemp acor0 y0)))
            (sensRhs ctx.tn (ctx.zn 0 + (acor0 + newtonB ctx lsolve ftemp acor0 y0))
              (f ctx.tn (ctx.zn 0 + (acor0 + newtonB ctx lsolve ftemp acor0 y0)))
              (fun i => ctx.znS i 0 + (acorS0 i + bS i)))
            (acor0 + newtonB ctx lsolve ftemp acor0 y0)
            (fun i => acorS0 i + bS i)
            (ctx.zn 0 + (acor0 + newtonB ctx lsolve ftemp acor0 y0))
            (fun i => ctx.znS i 0 + (acorS0 i + bS i))

end NlsLoops

section NlsTermination

variable {V : Type*} [AddCommGroup V] [Module ℚ V]

lemma cvNlsFunctionalLoop_total (ctx : NlsCtx V) (wrms : V → V → ℚ)
    (f : ℚ → V → V) (sensRhs : ℚ → V → V → (ℕ → V) → (ℕ → V)) :
    ∀ (fuel m : ℕ) (crate delp : ℚ) (iters : ℕ) (tempv : V) (tempvS : ℕ → V)
      (acor : V) (acorS : ℕ → V),
      m < ctx.maxcor → ctx.maxcor ≤ m + fuel →
      ∃ out, cvNlsFunctionalLoop ctx wrms f sensRhs fuel m crate delp iters
          tempv tempvS acor acorS = some out ∧ out.iters ≤ iters + fuel := by
  intro fuel
  induction fuel with
  | zero => intro m _ _ _ _ _ _ _ hm hf; omega
  | succ fuel ih =>
    intro m crate delp iters tempv tempvS acor acorS hm hf
    rw [cvNlsFunctionalLoop]
    split_ifs <;>
      try (exact ⟨_, rfl, by show iters + 1 ≤ iters + (fuel + 1); omega⟩)
    all_goals {
      rename_i hexit
      unfold nlsExitCond at hexit
      push_neg at hexit
      obtain ⟨out, hout, hiter⟩ := ih (m + 1) _ _ (iters + 1) _ _ _ _
        (by omega) (by omega)
      exact ⟨out, hout, by omega⟩ }

lemma cvNewtonIterationLoop_total (ctx : NlsCtx V) (wrms : V → V → ℚ)
    (f : ℚ → V → V) (sensRhs : ℚ → V → V → (ℕ → V) → (ℕ → V))
    (lsolve : V → V → V → V → ℤ × V) :
    ∀ (fuel m : ℕ) (crate delp : ℚ) (iters : ℕ) (ftemp : V) (ftempS : ℕ → V)
      (acor : V) (acorS : ℕ → V) (y : V) (yS : ℕ → V),
      m < ctx.maxcor → ctx.maxcor ≤ m + fuel →
      ∃ out, cvNewtonIterationLoop ctx wrms f sensRhs lsolve fuel m crate delp
          iters ftemp ftempS acor acorS y yS = some out
        ∧ out.iters ≤ iters + fuel := by
  intro fuel
  induction fuel with
  | zero => intro m _ _ _ _ _ _ _ _ _ hm hf; omega
  | succ fuel ih =>
    intro m crate delp iters ftemp ftempS acor acorS y yS hm hf
    rw [cvNewtonIterationLoop]
    cases hS : newtonSensSolve ctx lsolve y ftemp ftempS acorS with
    | error e =>
      simp only []
      split_ifs <;>
        exact ⟨_, rfl, by show iters + 1 ≤ iters + (fuel + 1); omega⟩
    | ok bS =>
      simp only []
      split_ifs <;>
        try (exact ⟨_, rfl, by show iters + 1 ≤ iters + (fuel + 1); omega⟩)
      all_goals {
        rename_i hexit
        unfold nlsExitCond at hexit
        push_neg at hexit
        obtain ⟨out, hout, hiter⟩ := ih (m + 1) _ _ (iters + 1) _ _ _ _ _ _
          (by omega) (by omega)
        exact ⟨out, hout, by omega⟩ }

end NlsTermination

section C8Claim

/-- NLS_MAXCOR (cvodes.c:157): the default maximum number of corrector
iterations, installed into cv_maxcor by CVodeCreate (cvodes.c:699). -/
def NLS_MAXCOR : ℕ := 3

/-- C8: with maxcor = NLS_MAXCOR = 3, both corrector loops terminate within
maxcor executed iterations; and whenever convergence
(dcon = Del min(1, crate)/tq[4] <= 1) has not been achieved but the counter
has reached maxcor, or has reached 2 with Del > RDIV Delp, the functional
loop returns ConvFail at once, while the Newton loop returns TryAgain when
the Jacobian data was stale and a setup routine exists (jcur false and
setupNonNull), and ConvFail otherwise. -/
theorem C8_corrector_termination {V : Type*} [AddCommGroup V] [Module ℚ V]
    (ctx : NlsCtx V) (wrms : V → V → ℚ) (f : ℚ → V → V)
    (sensRhs : ℚ → V → V → (ℕ → V) → (ℕ → V)) (lsolve : V → V → V → V → ℤ × V)
    (hmax : ctx.maxcor = NLS_MAXCOR) :
    (∀ (crate delp : ℚ) (tempv : V) (tempvS : ℕ → V) (acor : V) (acorS : ℕ → V),
      ∃ out, cvNlsFunctionalLoop ctx wrms f sensRhs NLS_MAXCOR 0 crate delp 0
          tempv tempvS acor acorS = some out ∧ out.iters ≤ NLS_MAXCOR)
    ∧
    (∀ (crate delp : ℚ) (ftemp : V) (ftempS : ℕ → V) (acor : V) (acorS : ℕ → V)
        (y : V) (yS : ℕ → V),
      ∃ out, cvNewtonIterationLoop ctx wrms f sensRhs lsolve NLS_MAXCOR 0 crate
          delp 0 ftemp ftempS acor acorS y yS = some out ∧ out.iters ≤ NLS_MAXCOR)
    ∧
    (∀ (fuel m : ℕ) (crate delp : ℚ) (iters : ℕ) (tempv : V) (tempvS : ℕ → V)
        (acor : V) (acorS : ℕ → V),
      ¬ nlsDcon ctx
          (nlsDel ctx wrms (funcCorr ctx tempv - acor)
            (fun i => funcCorrS ctx tempvS i - acorS i))
          (crateUpd m crate
            (nlsDel ctx wrms (funcCorr ctx tempv - acor)
              (fun i => funcCorrS ctx tempvS i - acorS i)) delp) ≤ 1 →
      nlsExitCond ctx.maxcor (m + 1)
        (nlsDel ctx wrms (funcCorr ctx tempv - acor)
          (fun i => funcCorrS ctx tempvS i - acorS i)) delp →
      ∃ out, cvNlsFunctionalLoop ctx wrms f sensRhs (fuel + 1) m crate delp iters
          tempv tempvS acor acorS = some out ∧ out.ret = NlsRet.convFail)
    ∧
    (∀ (fuel m : ℕ) (crate delp : ℚ) (iters : ℕ) (ftemp : V) (ftempS : ℕ → V)
        (acor : V) (acorS : ℕ → V) (y : V) (yS : ℕ → V) (bS : ℕ → V),
      (lsolve (newtonResid ctx ftemp acor) ctx.ewt y ftemp).1 = 0 →
      newtonSensSolve ctx lsolve y ftemp ftempS acorS = Except.ok bS →
      ¬ nlsDcon ctx (nlsDel ctx wrms (newtonB ctx lsolve ftemp acor y) bS)
          (crateUpd m crate
            (nlsDel ctx wrms (newtonB ctx lsolve ftemp acor y) bS) delp) ≤ 1 →
      nlsExitCond ctx.maxcor (m + 1)
        (nlsDel ctx wrms (newtonB ctx lsolve ftemp acor y) bS) delp →
      ∃ out, cvNewtonIterationLoop ctx wrms f sensRhs lsolve (fuel + 1) m crate
          delp iters ftemp ftempS acor acorS y yS = some out
        ∧ out.ret = (if ctx.jcur = false ∧ ctx.setupNonNull = true then
            NlsRet.tryAgain else NlsRet.convFail)) := by
  refine ⟨?_, ?_, ?_, ?_⟩
  · intro crate delp tempv tempvS acor acorS
    obtain ⟨out, hout, hiter⟩ :=
      cvNlsFunctionalLoop_total ctx wrms f sensRhs NLS_MAXCOR 0 crate delp 0
        tempv tempvS acor acorS (by rw [hmax]; unfold NLS_MAXCOR; omega)
        (by rw [hmax]; unfold NLS_MAXCOR; omega)
    exact ⟨out, hout, by unfold NLS_MAXCOR at hiter ⊢; omega⟩
  · intro crate delp ftemp ftempS acor acorS y yS
    obtain ⟨out, hout, hiter⟩ :=
      cvNewtonIterationLoop_total ctx wrms f sensRhs lsolve NLS_MAXCOR 0 crate
        delp 0 ftemp ftempS acor acorS y yS
        (by rw [hmax]; unfold NLS_MAXCOR; omega)
        (by rw [hmax]; unfold NLS_MAXCOR; omega)
    exact ⟨out, hout, by unfold NLS_MAXCOR at hiter ⊢; omega⟩
  · intro fuel m crate delp iters tempv tempvS acor acorS hdcon hexit
    rw [cvNlsFunctionalLoop, if_neg hdcon, if_pos hexit]
    exact ⟨_, rfl, rfl⟩
  · intro fuel m crate delp iters ftemp ftempS acor acorS y yS bS h0 hS hdcon hexit
    rw [cvNewtonIterationLoop, h0]
    rw [if_neg (lt_irrefl (0 : ℤ)), if_neg (lt_irrefl (0 : ℤ)), hS]
    simp only []
    rw [if_neg hdcon, if_pos hexit]
    by_cases hj : ctx.jcur = false ∧ ctx.setupNonNull = true
    · rw [if_pos hj, if_pos hj]
      exact ⟨_, rfl, rfl⟩
    · rw [if_neg hj, if_neg hj]
      exact ⟨_, rfl, rfl⟩

/-- A concrete corrector-loop context for the C8 counterexample and witness:
Newton with stale Jacobian data (jcur false) and a setup routine present
(setupNonNull), no sensitivities, maxcor = NLS_MAXCOR. -/
def newtCtx : NlsCtx ℚ where
  tn := 0
  h := 1
  rl1 := 1
  gamma := 1
  tq := fun _ => 1
  maxcor := NLS_MAXCOR
  Ns := 0
  do_sensi_sim := false
  errconFull := false
  jcur := false
  setupNonNull := true
  zn := fun _ => 0
  znS := fun _ _ => 0
  ewt := 1
  ewtS := fun _ => 1

/-- C8 counterexample to the frozen claim's "returns a convergence failure":
with a constant residual norm 2 (so dcon = 2 > 1 at every iteration) and a
successful linear solve, the Newton loop exits at m = maxcor = 3 with
TryAgain, not ConvFail, because jcur is false and setupNonNull is true. -/
theorem C8_corrector_termination_counterexample :
    cvNewtonIterationLoop newtCtx (fun _ _ => 2) (fun _ _ => 0)
        (fun _ _ _ _ _ => 0) (fun b _ _ _ => ((0 : ℤ), b)) NLS_MAXCOR 0 1 1 0
        0 (fun _ => 0) 0 (fun _ => 0) 0 (fun _ => 0)
      = some ⟨NlsRet.tryAgain, 3, 1, 0, 0, 0⟩
    ∧ NlsRet.tryAgain ≠ NlsRet.convFail := by
  refine ⟨?_, by decide⟩
  show cvNewtonIterationLoop newtCtx (fun _ _ => 2) (fun _ _ => 0)
      (fun _ _ _ _ _ => 0) (fun b _ _ _ => ((0 : ℤ), b)) (2 + 1) 0 1 1 0
      0 (fun _ => 0) 0 (fun _ => 0) 0 (fun _ => 0) = _
  rw [cvNewtonIterationLoop]
  norm_num [newtCtx, newtonResid, newtonB, newtonSensSolve, newtonSensResid,
    nlsDel, nlsDcon, nlsAcnrm, crateUpd, nlsExitCond, NLS_MAXCOR, CRDOWN, RDIV,
    max_def, min_def]
  rw [show (2 : ℕ) = 1 + 1 from rfl, cvNewtonIterationLoop]
  norm_num [newtCtx, newtonResid, newtonB, newtonSensSolve, newtonSensResid,
    nlsDel, nlsDcon, nlsAcnrm, crateUpd, nlsExitCond, NLS_MAXCOR, CRDOWN, RDIV,
    max_def, min_def]
  rw [show (1 : ℕ) = 0 + 1 from rfl, cvNewtonIterationLoop]
  norm_num [newtCtx, newtonResid, newtonB, newtonSensSolve, newtonSensResid,
    nlsDel, nlsDcon, nlsAcnrm, crateUpd, nlsExitCond, NLS_MAXCOR, CRDOWN, RDIV,
    max_def, min_def]

/-- Witness for C8: the termination bound of the first conjunct at the
concrete Newton context. -/
theorem C8_corrector_termination_witness :
    ∃ out, cvNlsFunctionalLoop newtCtx (fun _ _ => 2) (fun _ _ => 0)
        (fun _ _ _ _ _ => 0) NLS_MAXCOR 0 1 1 0 0 (fun _ => 0) 0 (fun _ => 0)
      = some out ∧ out.iters ≤ NLS_MAXCOR :=
  (C8_corrector_termination newtCtx (fun _ _ => 2) (fun _ _ => 0)
    (fun _ _ _ _ _ => 0) (fun b _ _ _ => ((0 : ℤ), b)) rfl).1 1 1 0
    (fun _ => 0) 0 (fun _ => 0)

end C8Claim

section C9Claim

/-- HLB_FACTOR (cvodes.c:88). -/
def HLB_FACTOR : ℚ := 100

/-- HUB_FACTOR (cvodes.c:89). -/
def HUB_FACTOR : ℚ := 1/10

/-- H_BIAS = HALF (cvodes.c:90). -/
def H_BIAS : ℚ := 1/2

/-- MAX_ITERS (cvodes.c:91). -/
def MAX_ITERS : ℕ := 4

/-- CVUpperBoundH0 (cvodes.c:4473-4542): hub = HUB_FACTOR tdist, replaced by
1/hub_inv when hub hub_inv > 1.  hub_inv is the largest max-norm of the
componentwise quotients |zn[1]|/(HUB_FACTOR |zn[0]| + atol) over the state
and, when их error control is on, the quadrature and sensitivity systems;
it enters the routine's scalar tail as a single number and is a parameter
here. -/
def CVUpperBoundH0 (tdist hub_inv : ℚ) : ℚ :=
  if 1 < HUB_FACTOR * tdist * hub_inv then 1 / hub_inv else HUB_FACTOR * tdist

/-- The hnew update of the CVHin loop body (cvodes.c:4443):
hnew = (yddnrm hub^2 > 2) ? sqrt(2/yddnrm) : sqrt(hg hub), with
yddnrm = CVYddNorm(hg sign).  CVYddNorm and RSqrt are parameters. -/
def cvHinHnew (yddnorm sq : ℚ → ℚ) (hub sign hg : ℚ) : ℚ :=
  if 2 < yddnorm (hg * sign) * hub * hub then sq (2 / yddnorm (hg * sign))
  else sq (hg * hub)

/-- The iteration of CVHin (cvodes.c:4440-4454): stop at MAX_ITERS
counted iterations, when hnew/hg lands strictly inside (1/2, 2), or — from
the second iteration on, discarding hnew — when hnew/hg > 2; count is the
value before the count++ of the iteration.  The C loop is bounded by its
count escape; the fuel is never exhausted when it starts at MAX_ITERS. -/
def cvHinLoop (yddnorm sq : ℚ → ℚ) (hub sign : ℚ) : ℕ → ℕ → ℚ → ℚ
  | 0, _, hg => hg
  | fuel + 1, count, hg =>
    if MAX_ITERS ≤ count + 1 then cvHinHnew yddnorm sq hub sign hg
    else if H_BIAS < cvHinHnew yddnorm sq hub sign hg / hg ∧
        cvHinHnew yddnorm sq hub sign hg / hg < 2 then
      cvHinHnew yddnorm sq hub sign hg
    else if 2 ≤ count + 1 ∧ 2 < cvHinHnew yddnorm sq hub sign hg / hg then hg
    else
      cvHinLoop yddnorm sq hub sign fuel (count + 1)
        (cvHinHnew yddnorm sq hub sign hg)

/-- The sign selector of CVHin (cvodes.c:4417). -/
def hinSign (tdiff : ℚ) : ℚ := if 0 < tdiff then 1 else -1

/-- tround = uround max(|tn|, |tout|) (cvodes.c:4419). -/
def hinTround (uround tn tout : ℚ) : ℚ := uround * max |tn| |tout|

/-- The clipping of h0 (cvodes.c:4458-4459): first raise to hlb, then cap
at hub, in that order. -/
def hinClip (hlb hub h0 : ℚ) : ℚ :=
  if hub < (if h0 < hlb then hlb else h0) then hub
  else (if h0 < hlb then hlb else h0)

/-- CVHin (cvodes.c:4407-4464): none models the FALSE return with h left
unset; some h the TRUE return setting h.  RSqrt, CVYddNorm and the vector
part of CVUpperBoundH0 are parameters (sq, yddnorm, hub_inv). -/
def CVHin (uround tn tout : ℚ) (yddnorm sq : ℚ → ℚ) (hub_inv : ℚ) : Option ℚ :=
  if tout - tn = 0 then none
  else if |tout - tn| < 2 * hinTround uround tn tout then none
  else if CVUpperBoundH0 |tout - tn| hub_inv <
      HLB_FACTOR * hinTround uround tn tout then
    some (hinSign (tout - tn) *
      sq (HLB_FACTOR * hinTround uround tn tout *
        CVUpperBoundH0 |tout - tn| hub_inv))
  else
    some (hinSign (tout - tn) *
      hinClip (HLB_FACTOR * hinTround uround tn tout)
        (CVUpperBoundH0 |tout - tn| hub_inv)
        (H_BIAS * cvHinLoop yddnorm sq (CVUpperBoundH0 |tout - tn| hub_inv)
          (hinSign (tout - tn)) MAX_ITERS 0
          (sq (HLB_FACTOR * hinTround uround tn tout *
            CVUpperBoundH0 |tout - tn| hub_inv))))

/-- When hlb does not exceed hub, the two sequential clips of CVHin compute
the mathematical clamp of h0 into [hlb, hub]. -/
lemma hinClip_eq (hlb hub h0 : ℚ) (hle : hlb ≤ hub) :
    hinClip hlb hub h0 = max hlb (min hub h0) := by
  unfold hinClip
  rw [max_def, min_def]
  split_ifs <;> linarith

/-- C9: the initial-step estimator CVHin fails exactly when tout = t0 or
|tout - t0| < 2 uround max(|t0|, |tout|); whenever it succeeds with
hlb = 100 tround at most hub, the produced step is 0.5 hnew (hnew the
loop's final value) clamped into [hlb, hub] and multiplied by the sign
selector, which is 1 when tout > t0 and -1 when tout < t0. -/
theorem C9_initial_step (uround tn tout : ℚ) (yddnorm sq : ℚ → ℚ)
    (hub_inv : ℚ) :
    (CVHin uround tn tout yddnorm sq hub_inv = none ↔
      tout - tn = 0 ∨ |tout - tn| < 2 * hinTround uround tn tout)
    ∧
    (∀ h, CVHin uround tn tout yddnorm sq hub_inv = some h →
      HLB_FACTOR * hinTround uround tn tout ≤
        CVUpperBoundH0 |tout - tn| hub_inv →
      h = hinSign (tout - tn) *
        max (HLB_FACTOR * hinTround uround tn tout)
          (min (CVUpperBoundH0 |tout - tn| hub_inv)
            (H_BIAS * cvHinLoop yddnorm sq (CVUpperBoundH0 |tout - tn| hub_inv)
              (hinSign (tout - tn)) MAX_ITERS 0
              (sq (HLB_FACTOR * hinTround uround tn tout *
                CVUpperBoundH0 |tout - tn| hub_inv)))))
    ∧ (0 < tout - tn → hinSign (tout - tn) = 1)
    ∧ (tout - tn < 0 → hinSign (tout - tn) = -1) := by
  refine ⟨?_, ?_, ?_, ?_⟩
  · unfold CVHin
    split_ifs with h1 h2 h3 <;> simp [*]
  · intro h hsome hle
    unfold CVHin at hsome
    split_ifs at hsome with h1 h2 h3
    · exact absurd h3 (not_lt.mpr hle)
    · rw [← Option.some.inj hsome, hinClip_eq _ _ _ hle]
  · intro hpos
    unfold hinSign
    rw [if_pos hpos]
  · intro hneg
    unfold hinSign
    rw [if_neg (not_lt.mpr (le_of_lt hneg))]

/-- C9 counterexample to the frozen claim's "exactly when
|tout - t0| < 2 uround max(|t0|, |tout|)": at t0 = tout = 0 the closeness
bound 2 tround is 0 and the inequality is false, yet CVHin fails (cvodes.c
returns FALSE already at tdiff == 0, cvodes.c:4415). -/
theorem C9_initial_step_counterexample :
    CVHin 1 0 0 (fun _ => 0) (fun _ => 0) 0 = none
    ∧ ¬ |(0 : ℚ) - 0| < 2 * hinTround 1 0 0 := by
  constructor
  · unfold CVHin
    rw [if_pos (by norm_num)]
  · norm_num [hinTround]

/-- Witness for C9: the failure characterisation at a concrete input. -/
theorem C9_initial_step_witness :
    CVHin (1/100) 0 1 (fun _ => 0) (fun _ => 1) 0 = none ↔
      (1 : ℚ) - 0 = 0 ∨ |(1 : ℚ) - 0| < 2 * hinTround (1/100) 0 1 :=
  (C9_initial_step (1/100) 0 1 (fun _ => 0) (fun _ => 1) 0).1

end C9Claim

section C10Claim

/-- Return codes of CVodeSetMaxOrd: SUCCESS or CVS_ILL_INPUT
(cvodes.c:812-820). -/
inductive SetMaxOrdRet where
  | success
  | illInput
deriving DecidableEq, Repr

/-- ADAMS_Q_MAX: the Adams order ceiling of CVodeCreate (cvodes.c:679); its
defining header is not among the repository files, so the value 12 is
modelled from the specification. -/
def ADAMS_Q_MAX : ℕ := 12

/-- BDF_Q_MAX: the BDF order ceiling of CVodeCreate (cvodes.c:679); its
defining header is not among the repository files, so the value 5 is
modelled from the specification. -/
def BDF_Q_MAX : ℕ := 5

/-- The qmax installed by CVodeCreate (cvodes.c:679, 691). -/
def createQmax : LMM → ℤ
  | .adams => ADAMS_Q_MAX
  | .bdf => BDF_Q_MAX

/-- CVodeSetMaxOrd (cvodes.c:801-825) on a non-null memory: the returned
flag and the cv_qmax field after the call. -/
def CVodeSetMaxOrd (qmax maxord : ℤ) : SetMaxOrdRet × ℤ :=
  if maxord ≤ 0 then (.illInput, qmax)
  else if qmax < maxord then (.illInput, qmax)
  else (.success, maxord)

/-- The qmax after a sequence of CVodeSetMaxOrd calls on one handle. -/
def setMaxOrdRun (qmax : ℤ) (calls : List ℤ) : ℤ :=
  calls.foldl (fun q m => (CVodeSetMaxOrd q m).2) qmax

lemma CVodeSetMaxOrd_le (qmax maxord : ℤ) :
    (CVodeSetMaxOrd qmax maxord).2 ≤ qmax := by
  unfold CVodeSetMaxOrd
  split_ifs <;> simp only [] <;> omega

lemma setMaxOrdRun_le (calls : List ℤ) : ∀ qmax : ℤ,
    setMaxOrdRun qmax calls ≤ qmax := by
  induction calls with
  | nil => intro q; simp [setMaxOrdRun]
  | cons m ms ih =>
    intro q
    calc setMaxOrdRun q (m :: ms) = setMaxOrdRun (CVodeSetMaxOrd q m).2 ms := by
          simp [setMaxOrdRun]
      _ ≤ (CVodeSetMaxOrd q m).2 := ih _
      _ ≤ q := CVodeSetMaxOrd_le q m

/-- C10: CVodeSetMaxOrd rejects maxord <= 0 and maxord > qmax with
CVS_ILL_INPUT leaving qmax unchanged, and otherwise installs maxord, which
does not exceed the old qmax; hence qmax never increases, and after any
sequence of calls on a handle it stays at or below the creation ceiling
(ADAMS_Q_MAX for Adams, BDF_Q_MAX for BDF). -/
theorem C10_qmax_never_increases :
    (∀ qmax maxord : ℤ,
      ((CVodeSetMaxOrd qmax maxord).1 = SetMaxOrdRet.illInput ↔
        maxord ≤ 0 ∨ qmax < maxord)
      ∧ ((CVodeSetMaxOrd qmax maxord).1 = SetMaxOrdRet.illInput →
          (CVodeSetMaxOrd qmax maxord).2 = qmax)
      ∧ ((CVodeSetMaxOrd qmax maxord).1 = SetMaxOrdRet.success →
          (CVodeSetMaxOrd qmax maxord).2 = maxord ∧ maxord ≤ qmax)
      ∧ (CVodeSetMaxOrd qmax maxord).2 ≤ qmax)
    ∧ (∀ (lmm : LMM) (calls : List ℤ),
        setMaxOrdRun (createQmax lmm) calls ≤ createQmax lmm) := by
  refine ⟨fun qmax maxord => ?_, fun lmm calls => setMaxOrdRun_le calls _⟩
  unfold CVodeSetMaxOrd
  split_ifs with h1 h2
  · exact ⟨by simp [h1], fun _ => rfl, fun hc => by simp at hc,
      le_refl _⟩
  · exact ⟨by simp [h2], fun _ => rfl, fun hc => by simp at hc,
      le_refl _⟩
  · exact ⟨by simp [h1, h2], fun hc => by simp at hc,
      fun _ => ⟨rfl, by omega⟩, by omega⟩

end C10Claim
